import Mathlib

/-!
Verification of the room/message state store of the chatter-first-letters-chat
repository (src/src/contexts/ChatContext.tsx).

Modelling conventions:
- JavaScript strings are modelled as lists of characters (abbrev JStr).
- The React state triple (currentUser, activeRoom, savedRooms) is modelled as
  an explicit ChatState record; each store operation is a pure state
  transformer.  Values produced by the environment (nanoid ids, Date.now()
  timestamps, the Math.random() draw behind generateRoomCode) are passed in as
  explicit parameters.
- Date.now() returns positive epoch milliseconds, so a present endedAt field is
  always a truthy JavaScript number; the truthiness tests on endedAt in the
  source are therefore modelled as Option.isSome tests.
- toUpperCase/toLowerCase are modelled with Char.toUpper/Char.toLower, which
  agree with JavaScript on the ASCII range used by room codes and the examples
  in the claims.
-/

namespace ChatterSpec

/-- JavaScript string, modelled as a list of characters. -/
abbrev JStr := List Char

/-- Whitespace recognised by JavaScript String.prototype.trim (core set). -/
def isJsSpace (c : Char) : Bool :=
  c == ' ' || c == '\t' || c == '\n' || c == '\r' || c == '\x0b' || c == '\x0c'

/-- JavaScript String.prototype.trim. -/
def jsTrim (s : JStr) : JStr :=
  ((s.dropWhile isJsSpace).reverse.dropWhile isJsSpace).reverse

/-- JavaScript String.prototype.toLowerCase (ASCII-faithful model). -/
def jsLower (s : JStr) : JStr := s.map Char.toLower

/-- JavaScript String.prototype.toUpperCase (ASCII-faithful model). -/
def jsUpper (s : JStr) : JStr := s.map Char.toUpper

/-- The UserRole union type of ChatContext.tsx. -/
inductive UserRole where
  | host
  | participant
deriving DecidableEq, Repr

/-- The User interface of ChatContext.tsx. -/
structure User where
  id : JStr
  name : JStr
  displayChar : JStr
  role : UserRole
deriving DecidableEq, Repr

/-- The Message interface of ChatContext.tsx.  The optional isSystem flag is
none when the field is absent from the object literal. -/
structure Message where
  id : JStr
  senderId : JStr
  senderDisplayChar : JStr
  content : JStr
  timestamp : Nat
  isSystem : Option Bool
deriving DecidableEq, Repr

/-- The ChatRoom interface of ChatContext.tsx. -/
structure ChatRoom where
  id : JStr
  name : JStr
  createdAt : Nat
  endedAt : Option Nat
  hostId : JStr
  participants : List User
  messages : List Message
  code : JStr
deriving DecidableEq, Repr

/-- The mutable state held by ChatProvider: currentUser, activeRoom and
savedRooms. -/
structure ChatState where
  currentUser : Option User
  activeRoom : Option ChatRoom
  savedRooms : List ChatRoom
deriving DecidableEq, Repr

/-- The initial provider state: useState(null), useState(null), useState([]). -/
def initialState : ChatState :=
  { currentUser := none, activeRoom := none, savedRooms := [] }

/-- Helper for decimal rendering: pushes the decimal digits of n, least
significant digit first, onto the front of acc; fuel bounds the recursion. -/
def toDecimalAux (fuel n : Nat) (acc : JStr) : JStr :=
  match fuel with
  | 0 => acc
  | fuel + 1 =>
    if n = 0 then acc
    else toDecimalAux fuel (n / 10) (Char.ofNat (48 + n % 10) :: acc)

/-- Decimal rendering of a natural number, as Number.prototype.toString. -/
def renderNat (n : Nat) : JStr :=
  if n = 0 then ['0'] else toDecimalAux n n []

/-- getDisplayChar from ChatContext.tsx: default A for an empty name,
otherwise the uppercased first letter, suffixed with sameLetterCount + 1 when
some current participant displayChar already starts with that letter. -/
def getDisplayChar (name : JStr) (participants : List User) : JStr :=
  match name with
  | [] => ['A']
  | c :: _ =>
    let firstLetter := c.toUpper
    let sameLetterCount :=
      (participants.filter (fun p => p.displayChar.take 1 == [firstLetter])).length
    if sameLetterCount > 0 then firstLetter :: renderNat (sameLetterCount + 1)
    else [firstLetter]

/-- createRoom from ChatContext.tsx.  The nanoid ids (hostId, roomId, msgId),
the generated room code and the two Date.now() readings are parameters. -/
def createRoom (s : ChatState) (name hostName hostId roomId roomCode msgId : JStr)
    (t1 t2 : Nat) : ChatRoom × ChatState :=
  let host : User := { id := hostId, name := hostName, displayChar := ['H'], role := .host }
  let newRoom : ChatRoom :=
    { id := roomId
      name := name
      createdAt := t1
      endedAt := none
      hostId := hostId
      participants := [host]
      messages := [{ id := msgId
                     senderId := "system".toList
                     senderDisplayChar := ['S']
                     content := "Room \"".toList ++ name ++ "\" created. Share code: ".toList ++ roomCode
                     timestamp := t2
                     isSystem := some true }]
      code := roomCode }
  (newRoom,
    { currentUser := some host
      activeRoom := some newRoom
      savedRooms := s.savedRooms ++ [newRoom] })

/-- The code normalisation performed by joinRoom: code.trim().toUpperCase(). -/
def formatCode (code : JStr) : JStr := jsUpper (jsTrim code)

/-- The room lookup of joinRoom: prefer the active room when its code matches
and it has not ended, otherwise search savedRooms for a room with the
formatted code and no endedAt. -/
def findTargetRoom (s : ChatState) (fc : JStr) : Option ChatRoom :=
  match s.activeRoom with
  | some a =>
    if a.code == fc && a.endedAt == none then some a
    else s.savedRooms.find? (fun r => r.code == fc && r.endedAt == none)
  | none => s.savedRooms.find? (fun r => r.code == fc && r.endedAt == none)

/-- The savedRooms update used by join/send/leave/end: replace every room
whose id equals the updated room's id. -/
def replaceById (rooms : List ChatRoom) (updated : ChatRoom) : List ChatRoom :=
  rooms.map (fun r => if r.id == updated.id then updated else r)

/-- The participant User built by joinRoom: fresh id, trimmed name, derived
displayChar (note that getDisplayChar receives the untrimmed userName, as in
the source). -/
def joinUser (userName userId : JStr) (target : ChatRoom) : User :=
  { id := userId, name := jsTrim userName,
    displayChar := getDisplayChar userName target.participants, role := .participant }

/-- The join system message built by joinRoom. -/
def joinSysMsg (userName msgId : JStr) (target : ChatRoom) (t : Nat) : Message :=
  { id := msgId
    senderId := "system".toList
    senderDisplayChar := ['S']
    content := getDisplayChar userName target.participants ++ " joined the room".toList
    timestamp := t
    isSystem := some true }

/-- The updated room built by joinRoom: participant and join message
appended. -/
def joinUpdatedRoom (userName userId msgId : JStr) (target : ChatRoom) (t : Nat) : ChatRoom :=
  { target with
      participants := target.participants ++ [joinUser userName userId target]
      messages := target.messages ++ [joinSysMsg userName msgId target t] }

/-- joinRoom from ChatContext.tsx.  The nanoid ids and the Date.now() reading
are parameters. -/
def joinRoom (s : ChatState) (code userName userId msgId : JStr) (t : Nat) :
    Bool × ChatState :=
  if code == ([] : JStr) || userName == ([] : JStr) || jsTrim userName == ([] : JStr) then
    (false, s)
  else
    match findTargetRoom s (formatCode code) with
    | none => (false, s)
    | some targetRoom =>
      if targetRoom.endedAt != none then (false, s)
      else if (targetRoom.participants.find?
          (fun p => jsLower p.name == jsLower (jsTrim userName))).isSome then
        (false, s)
      else
        (true,
          { currentUser := some (joinUser userName userId targetRoom)
            activeRoom := some (joinUpdatedRoom userName userId msgId targetRoom t)
            savedRooms := replaceById s.savedRooms
              (joinUpdatedRoom userName userId msgId targetRoom t) })

/-- The Message built by sendMessage: authored by the current user, trimmed
content, no isSystem field. -/
def sendNewMessage (u : User) (content msgId : JStr) (t : Nat) : Message :=
  { id := msgId
    senderId := u.id
    senderDisplayChar := u.displayChar
    content := jsTrim content
    timestamp := t
    isSystem := none }

/-- The updated room built by sendMessage: the new message appended. -/
def sendUpdatedRoom (a : ChatRoom) (u : User) (content msgId : JStr) (t : Nat) : ChatRoom :=
  { a with messages := a.messages ++ [sendNewMessage u content msgId t] }

/-- sendMessage from ChatContext.tsx. -/
def sendMessage (s : ChatState) (content msgId : JStr) (t : Nat) : Bool × ChatState :=
  if content == ([] : JStr) || jsTrim content == ([] : JStr) then (false, s)
  else
    match s.activeRoom, s.currentUser with
    | some activeRoom, some currentUser =>
      if activeRoom.endedAt != none then (false, s)
      else
        (true,
          { s with
              activeRoom := some (sendUpdatedRoom activeRoom currentUser content msgId t)
              savedRooms := replaceById s.savedRooms
                (sendUpdatedRoom activeRoom currentUser content msgId t) })
    | _, _ => (false, s)

/-- The closing system message built by endRoom. -/
def closedSysMsg (msgId : JStr) (t : Nat) : Message :=
  { id := msgId
    senderId := "system".toList
    senderDisplayChar := ['S']
    content := "The room has been closed by the host.".toList
    timestamp := t
    isSystem := some true }

/-- The ended room built by endRoom: endedAt stamped, closing message
appended. -/
def endedRoomOf (a : ChatRoom) (msgId : JStr) (t : Nat) : ChatRoom :=
  { a with endedAt := some t, messages := a.messages ++ [closedSysMsg msgId t] }

/-- endRoom from ChatContext.tsx: host-only, stamps endedAt, appends the
closing system message, upserts into savedRooms, clears activeRoom and
currentUser. -/
def endRoom (s : ChatState) (msgId : JStr) (t : Nat) : ChatState :=
  match s.activeRoom, s.currentUser with
  | some activeRoom, some currentUser =>
    if currentUser.role = UserRole.host then
      let savedRooms2 :=
        if s.savedRooms.any (fun r => r.id == (endedRoomOf activeRoom msgId t).id) then
          replaceById s.savedRooms (endedRoomOf activeRoom msgId t)
        else s.savedRooms ++ [endedRoomOf activeRoom msgId t]
      { currentUser := none, activeRoom := none, savedRooms := savedRooms2 }
    else s
  | _, _ => s

/-- The left system message built by a participant leaveRoom. -/
def leftSysMsg (u : User) (msgId : JStr) (t : Nat) : Message :=
  { id := msgId
    senderId := "system".toList
    senderDisplayChar := ['S']
    content := u.displayChar ++ " left the room".toList
    timestamp := t
    isSystem := some true }

/-- The updated room built by a participant leaveRoom: the leaver filtered
out of the participants, the left message appended. -/
def leaveUpdatedRoom (a : ChatRoom) (u : User) (msgId : JStr) (t : Nat) : ChatRoom :=
  { a with
      participants := a.participants.filter (fun p => p.id != u.id)
      messages := a.messages ++ [leftSysMsg u msgId t] }

/-- leaveRoom from ChatContext.tsx: a host leaving delegates to endRoom; a
participant is removed from the participant list, a left system message is
appended and only currentUser is cleared. -/
def leaveRoom (s : ChatState) (msgId : JStr) (t : Nat) : ChatState :=
  match s.activeRoom, s.currentUser with
  | some activeRoom, some currentUser =>
    if currentUser.role = UserRole.host then endRoom s msgId t
    else
      { currentUser := none
        activeRoom := some (leaveUpdatedRoom activeRoom currentUser msgId t)
        savedRooms := replaceById s.savedRooms (leaveUpdatedRoom activeRoom currentUser msgId t) }
  | _, _ => s

/-- One base-36 fractional digit of the Math.random() draw, rendered as
Number.prototype.toString(36) renders it. -/
def digitChar36 (d : Fin 36) : Char :=
  if d.val < 10 then Char.ofNat (48 + d.val) else Char.ofNat (97 + (d.val - 10))

/-- The string Math.random().toString(36): the literal 0 when the fractional
expansion is empty, otherwise 0. followed by the base-36 fraction digits
(shortest form, as emitted by JavaScript). -/
def randToString36 (ds : List (Fin 36)) : JStr :=
  if ds = [] then ['0'] else '0' :: '.' :: ds.map digitChar36

/-- JavaScript String.prototype.substring(a, b) for a less than b: the
character range from a up to b, clamped to the string length. -/
def jsSubstring (s : JStr) (a b : Nat) : JStr := (s.take b).drop a

/-- generateRoomCode from ChatContext.tsx:
Math.random().toString(36).substring(2, 8).toUpperCase(), where the
Math.random() draw is represented by its base-36 fractional digits. -/
def generateRoomCode (ds : List (Fin 36)) : JStr :=
  jsUpper (jsSubstring (randToString36 ds) 2 8)

/-- JSON values as produced by JSON.parse / consumed by JSON.stringify,
restricted to the shapes the store serializes: object keys stay in insertion
order and the only numbers are the natural timestamps. -/
inductive Json where
  | null
  | bool (b : Bool)
  | num (n : Nat)
  | str (s : List Char)
  | arr (elems : List Json)
  | obj (members : List (List Char × Json))

/-- Lowercase hex digit, as used by JSON.stringify \u escapes. -/
def hexChar (n : Nat) : Char :=
  if n < 10 then Char.ofNat (48 + n) else Char.ofNat (87 + n)

/-- The escape JSON.stringify applies to one character: quote and backslash
escaped, the five short control escapes, \u00XX for other control
characters, everything else literal. -/
def escChar (c : Char) : JStr :=
  if c = '"' then ['\\', '"']
  else if c = '\\' then ['\\', '\\']
  else if c = '\x08' then ['\\', 'b']
  else if c = '\x09' then ['\\', 't']
  else if c = '\x0a' then ['\\', 'n']
  else if c = '\x0c' then ['\\', 'f']
  else if c = '\x0d' then ['\\', 'r']
  else if c.toNat < 32 then
    ['\\', 'u', '0', '0', hexChar (c.toNat / 16), hexChar (c.toNat % 16)]
  else [c]

/-- JSON.stringify escaping of a whole string body. -/
def escString : JStr → JStr
  | [] => []
  | c :: rest => escChar c ++ escString rest

/-- The four characters of the JSON null keyword. -/
def litNull : JStr := ['n', 'u', 'l', 'l']

/-- The four characters of the JSON true keyword. -/
def litTrue : JStr := ['t', 'r', 'u', 'e']

/-- The five characters of the JSON false keyword. -/
def litFalse : JStr := ['f', 'a', 'l', 's', 'e']

mutual

/-- The text JSON.stringify produces for a value (no spacing argument). -/
def renderJson : Json → JStr
  | .null => litNull
  | .bool b => if b then litTrue else litFalse
  | .num n => renderNat n
  | .str s => '"' :: (escString s ++ ['"'])
  | .arr [] => ['[', ']']
  | .arr (v :: vs) => '[' :: (renderJson v ++ renderItems vs)
  | .obj [] => ['\x7b', '\x7d']
  | .obj ((k, v) :: ms) => '\x7b' :: (renderMember k v ++ renderMembers ms)

/-- The rendering of the remaining array elements, each preceded by a comma,
closed by the bracket. -/
def renderItems : List Json → JStr
  | [] => [']']
  | v :: vs => ',' :: (renderJson v ++ renderItems vs)

/-- The rendering of one object member: quoted escaped key, colon, value. -/
def renderMember (k : JStr) (v : Json) : JStr :=
  '"' :: (escString k ++ ['"'] ++ (':' :: renderJson v))

/-- The rendering of the remaining object members, each preceded by a comma,
closed by the brace. -/
def renderMembers : List (JStr × Json) → JStr
  | [] => ['\x7d']
  | (k, v) :: ms => ',' :: (renderMember k v ++ renderMembers ms)

end

mutual

/-- Weight of a JSON value: an upper bound for the parser fuel it needs. -/
def wVal : Json → Nat
  | .null => 1
  | .bool _ => 1
  | .num _ => 1
  | .str _ => 1
  | .arr [] => 2
  | .arr (v :: vs) => 1 + wItems (v :: vs)
  | .obj [] => 2
  | .obj (m :: ms) => 1 + wMembers (m :: ms)

/-- Weight of an array element tail. -/
def wItems : List Json → Nat
  | [] => 1
  | v :: vs => 1 + max (wVal v) (wItems vs)

/-- Weight of an object member tail. -/
def wMembers : List (JStr × Json) → Nat
  | [] => 1
  | (_, v) :: ms => 1 + max (wVal v) (wMembers ms)

end

/-- Value of a hex digit character, for \u escapes. -/
def hexVal (c : Char) : Option Nat :=
  if '0' ≤ c ∧ c ≤ '9' then some (c.toNat - 48)
  else if 'a' ≤ c ∧ c ≤ 'f' then some (c.toNat - 87)
  else if 'A' ≤ c ∧ c ≤ 'F' then some (c.toNat - 55)
  else none

/-- The character denoted by a single-character JSON escape. -/
def unescape (e : Char) : Option Char :=
  if e = '"' then some '"'
  else if e = '\\' then some '\\'
  else if e = '/' then some '/'
  else if e = 'b' then some '\x08'
  else if e = 't' then some '\x09'
  else if e = 'n' then some '\x0a'
  else if e = 'f' then some '\x0c'
  else if e = 'r' then some '\x0d'
  else none

mutual

/-- Parses a JSON string body (after the opening quote) up to the closing
quote, resolving escapes; returns the decoded string and the rest. -/
def parseStringBody : JStr → Option (JStr × JStr)
  | [] => none
  | c :: rest =>
    if c = '"' then some ([], rest)
    else if c = '\\' then parseEscaped rest
    else (parseStringBody rest).map (fun p => (c :: p.1, p.2))

/-- Parses the remainder of a string body directly after a backslash. -/
def parseEscaped : JStr → Option (JStr × JStr)
  | [] => none
  | e :: rest =>
    if e = 'u' then
      match rest with
      | h1 :: h2 :: h3 :: h4 :: rest2 =>
        match hexVal h1, hexVal h2, hexVal h3, hexVal h4 with
        | some a, some b, some c2, some d =>
          (parseStringBody rest2).map
            (fun p => (Char.ofNat (((a * 16 + b) * 16 + c2) * 16 + d) :: p.1, p.2))
        | _, _, _, _ => none
      | _ => none
    else
      match unescape e with
      | some u => (parseStringBody rest).map (fun p => (u :: p.1, p.2))
      | none => none

end

/-- Consumes a maximal run of decimal digits, accumulating their value. -/
def parseNatRun : JStr → Nat → Nat × JStr
  | [], acc => (acc, [])
  | c :: rest, acc =>
    if c.isDigit then parseNatRun rest (acc * 10 + (c.toNat - 48))
    else (acc, c :: rest)

/-- Reads the literal null after its leading n. -/
def parseNullTail : JStr → Option (Json × JStr)
  | 'u' :: 'l' :: 'l' :: r => some (.null, r)
  | _ => none

/-- Reads the literal true after its leading t. -/
def parseTrueTail : JStr → Option (Json × JStr)
  | 'r' :: 'u' :: 'e' :: r => some (.bool true, r)
  | _ => none

/-- Reads the literal false after its leading f. -/
def parseFalseTail : JStr → Option (Json × JStr)
  | 'a' :: 'l' :: 's' :: 'e' :: r => some (.bool false, r)
  | _ => none

mutual

/-- Fuel-bounded recursive-descent JSON value reader (whitespace-free input,
as produced by the serializer). -/
def parseVal : Nat → JStr → Option (Json × JStr)
  | 0, _ => none
  | _ + 1, [] => none
  | fuel + 1, c :: rest =>
    if c = 'n' then parseNullTail rest
    else if c = 't' then parseTrueTail rest
    else if c = 'f' then parseFalseTail rest
    else if c = '"' then
      match parseStringBody rest with
      | some (s, r) => some (.str s, r)
      | none => none
    else if c = '[' then
      match parseArrTail fuel rest with
      | some (vs, r) => some (.arr vs, r)
      | none => none
    else if c = '\x7b' then
      match parseObjTail fuel rest with
      | some (ms, r) => some (.obj ms, r)
      | none => none
    else if c.isDigit then
      some (.num (parseNatRun (c :: rest) 0).1, (parseNatRun (c :: rest) 0).2)
    else none

/-- Reads an array body after the opening bracket: either the immediate
closing bracket or comma-separated elements up to it. -/
def parseArrTail : Nat → JStr → Option (List Json × JStr)
  | 0, _ => none
  | _ + 1, [] => none
  | fuel + 1, c2 :: r2 =>
    if c2 = ']' then some ([], r2)
    else
      match parseVal fuel (c2 :: r2) with
      | some (v, ',' :: r3) =>
        match parseArrTail fuel r3 with
        | some (vs, r4) => some (v :: vs, r4)
        | none => none
      | some (v, ']' :: r3) => some ([v], r3)
      | _ => none

/-- Reads an object body after the opening brace: either the immediate
closing brace or comma-separated quoted-key members up to it. -/
def parseObjTail : Nat → JStr → Option (List (JStr × Json) × JStr)
  | 0, _ => none
  | _ + 1, [] => none
  | fuel + 1, c2 :: r2 =>
    if c2 = '\x7d' then some ([], r2)
    else if c2 = '"' then
      match parseStringBody r2 with
      | some (k, ':' :: r3) =>
        match parseVal fuel r3 with
        | some (v, ',' :: r4) =>
          match parseObjTail fuel r4 with
          | some (ms, r5) => some ((k, v) :: ms, r5)
          | none => none
        | some (v, '\x7d' :: r4) => some ([(k, v)], r4)
        | _ => none
      | _ => none
    else none

end

/-- JSON.parse on a whole text: the value must consume the entire input. -/
def parseJsonText (s : JStr) : Option Json :=
  match parseVal (s.length + 1) s with
  | some (v, []) => some v
  | _ => none

/-- Rest strings a number may be followed by: empty or non-digit-headed. -/
def noDigitHead : JStr → Prop
  | [] => True
  | c :: _ => ¬ c.isDigit = true

/-- String form of a UserRole, as serialized. -/
def roleStr : UserRole → JStr
  | .host => "host".toList
  | .participant => "participant".toList

/-- The JSON object a User serializes to (keys in object-literal order). -/
def userToJson (u : User) : Json :=
  .obj [("id".toList, .str u.id), ("name".toList, .str u.name),
        ("displayChar".toList, .str u.displayChar),
        ("role".toList, .str (roleStr u.role))]

/-- The JSON object a Message serializes to; the isSystem key is present
exactly when the field was set. -/
def msgToJson (m : Message) : Json :=
  .obj ([("id".toList, .str m.id), ("senderId".toList, .str m.senderId),
         ("senderDisplayChar".toList, .str m.senderDisplayChar),
         ("content".toList, .str m.content),
         ("timestamp".toList, .num m.timestamp)] ++
    (match m.isSystem with
     | none => []
     | some b => [("isSystem".toList, .bool b)]))

/-- The JSON object a ChatRoom serializes to; endedAt, added later by
endRoom's spread, sits last and only when present. -/
def roomToJson (r : ChatRoom) : Json :=
  .obj ([("id".toList, .str r.id), ("name".toList, .str r.name),
         ("createdAt".toList, .num r.createdAt),
         ("hostId".toList, .str r.hostId),
         ("participants".toList, .arr (r.participants.map userToJson)),
         ("messages".toList, .arr (r.messages.map msgToJson)),
         ("code".toList, .str r.code)] ++
    (match r.endedAt with
     | none => []
     | some t => [("endedAt".toList, .num t)]))

/-- The serialized form of the whole savedRooms collection. -/
def roomsToJson (rs : List ChatRoom) : Json := .arr (rs.map roomToJson)

/-- Decodes every element of a JSON list with the given element decoder. -/
def decodeList {α : Type} (g : Json → Option α) : List Json → Option (List α)
  | [] => some []
  | v :: vs =>
    match g v, decodeList g vs with
    | some a, some tail => some (a :: tail)
    | _, _ => none

/-- Inverse of roleStr. -/
def roleOfStr (s : JStr) : Option UserRole :=
  if s = "host".toList then some UserRole.host
  else if s = "participant".toList then some UserRole.participant
  else none

/-- Reads a User back from its serialized object shape. -/
def jsonToUser : Json → Option User
  | .obj [(k1, .str i), (k2, .str n), (k3, .str d), (k4, .str r)] =>
    if k1 = "id".toList ∧ k2 = "name".toList ∧ k3 = "displayChar".toList ∧
        k4 = "role".toList then
      (roleOfStr r).map fun role =>
        { id := i, name := n, displayChar := d, role := role }
    else none
  | _ => none

/-- Reads a Message back from its serialized object shape. -/
def jsonToMessage : Json → Option Message
  | .obj ((k1, .str i) :: (k2, .str si) :: (k3, .str sd) :: (k4, .str ct) ::
      (k5, .num ts) :: tail) =>
    if k1 = "id".toList ∧ k2 = "senderId".toList ∧
        k3 = "senderDisplayChar".toList ∧ k4 = "content".toList ∧
        k5 = "timestamp".toList then
      match tail with
      | [] =>
        some { id := i, senderId := si, senderDisplayChar := sd, content := ct,
               timestamp := ts, isSystem := none }
      | [(k6, .bool b)] =>
        if k6 = "isSystem".toList then
          some { id := i, senderId := si, senderDisplayChar := sd, content := ct,
                 timestamp := ts, isSystem := some b }
        else none
      | _ => none
    else none
  | _ => none

/-- Reads a ChatRoom back from its serialized object shape. -/
def jsonToRoom : Json → Option ChatRoom
  | .obj ((k1, .str i) :: (k2, .str n) :: (k3, .num ca) :: (k4, .str hid) ::
      (k5, .arr ps) :: (k6, .arr ms) :: (k7, .str cd) :: tail) =>
    if k1 = "id".toList ∧ k2 = "name".toList ∧ k3 = "createdAt".toList ∧
        k4 = "hostId".toList ∧ k5 = "participants".toList ∧
        k6 = "messages".toList ∧ k7 = "code".toList then
      match decodeList jsonToUser ps, decodeList jsonToMessage ms with
      | some users, some msgs =>
        match tail with
        | [] =>
          some { id := i, name := n, createdAt := ca, endedAt := none,
                 hostId := hid, participants := users, messages := msgs,
                 code := cd }
        | [(k8, .num te)] =>
          if k8 = "endedAt".toList then
            some { id := i, name := n, createdAt := ca, endedAt := some te,
                   hostId := hid, participants := users, messages := msgs,
                   code := cd }
          else none
        | _ => none
      | _, _ => none
    else none
  | _ => none

/-- Reads the whole collection back from its serialized array shape. -/
def jsonToRooms : Json → Option (List ChatRoom)
  | .arr l => decodeList jsonToRoom l
  | _ => none

/-- The localStorage slot under the savedRooms key: absent or a raw string. -/
abbrev Storage := Option JStr

/-- The persistence effect (localStorage.setItem of JSON.stringify applied
to the collection). -/
def saveRooms (rooms : List ChatRoom) : Storage :=
  some (renderJson (roomsToJson rooms))

/-- The load half of ChatProvider's mount behavior: getItem under the
savedRooms key and JSON.parse inside try/catch.  An absent slot leaves the
empty initial collection; a string that fails to parse is caught and logged,
the in-memory collection staying empty; a parsed value is installed as the
collection (the typed decoder models the untyped parsed array being used as
the room list, and is exact on everything saveRooms writes).  This is the
load effect in isolation; the persist effect the provider pairs with it on
the same mount is composed in mountRooms below. -/
def loadRooms (st : Storage) : List ChatRoom × Storage :=
  match st with
  | none => ([], none)
  | some s =>
    match parseJsonText s with
    | none => ([], some s)
    | some v => ((jsonToRooms v).getD [], some s)

/-- The complete mount-time behavior of ChatProvider for the savedRooms
slot: the load effect fixes the in-memory collection, then the persist
effect (setItem of JSON.stringify savedRooms, with savedRooms as
dependency) runs after the initial render and writes the in-memory
collection back, so a corrupt stored entry is overwritten by the
serialization of the empty collection. -/
def mountRooms (st : Storage) : List ChatRoom × Storage :=
  ((loadRooms st).1, saveRooms (loadRooms st).1)

/-- One mutation of the store, as invokable through the ChatContext value:
the five store operations plus the exposed setCurrentUser setter.  Fresh
nanoid ids, timestamps and the generated room code are arbitrary parameters;
the only freshness assumption is that createRoom's nanoid room id does not
collide with an existing room id (nanoid is specified as
collision-resistant). -/
inductive Step : ChatState → ChatState → Prop where
  | create (s : ChatState) (name hostName hostId roomId roomCode msgId : JStr) (t1 t2 : Nat)
      (hfresh : roomId ∉ s.savedRooms.map ChatRoom.id) :
      Step s (createRoom s name hostName hostId roomId roomCode msgId t1 t2).2
  | join (s : ChatState) (code userName userId msgId : JStr) (t : Nat) :
      Step s (joinRoom s code userName userId msgId t).2
  | send (s : ChatState) (content msgId : JStr) (t : Nat) :
      Step s (sendMessage s content msgId t).2
  | endTheRoom (s : ChatState) (msgId : JStr) (t : Nat) :
      Step s (endRoom s msgId t)
  | leave (s : ChatState) (msgId : JStr) (t : Nat) :
      Step s (leaveRoom s msgId t)
  | setUser (s : ChatState) (u : Option User) :
      Step s { s with currentUser := u }

/-- States reachable from the initial provider state by store operations. -/
inductive Reachable : ChatState → Prop where
  | init : Reachable initialState
  | step {s s' : ChatState} : Reachable s → Step s s' → Reachable s'

/-- Structural invariant of the store: saved room ids are pairwise distinct,
and the active room, when present, is recorded in savedRooms and is the only
saved room with its id. -/
def Inv (s : ChatState) : Prop :=
  (s.savedRooms.map ChatRoom.id).Nodup ∧
  ∀ a, s.activeRoom = some a →
    a ∈ s.savedRooms ∧ ∀ r ∈ s.savedRooms, r.id = a.id → r = a

/-- The new message list extends the old one: equal up to a suffix of newly
appended messages. -/
def MsgsExtend (old new : List Message) : Prop :=
  ∃ tail, new = old ++ tail

/-- Append-only transition property: savedRooms only grows, every surviving
saved slot keeps its room id and only appends messages, and an active room
that keeps its id only appends messages. -/
def AppendOnly (s s' : ChatState) : Prop :=
  s.savedRooms.length ≤ s'.savedRooms.length ∧
  List.Forall₂ (fun r r' => r'.id = r.id ∧ MsgsExtend r.messages r'.messages)
    s.savedRooms (s'.savedRooms.take s.savedRooms.length) ∧
  ∀ a a', s.activeRoom = some a → s'.activeRoom = some a' → a'.id = a.id →
    MsgsExtend a.messages a'.messages

/-- No two participants of a room have the same lowercased name. -/
def NoDupNames (r : ChatRoom) : Prop :=
  r.participants.Pairwise (fun p q => jsLower p.name ≠ jsLower q.name)

/-- Every room recorded in the state (saved or active) has pairwise distinct
lowercased participant names. -/
def NamesOK (s : ChatState) : Prop :=
  ∀ r, r ∈ s.savedRooms ∨ s.activeRoom = some r → NoDupNames r

/-- A concrete createRoom call with host name Jane, used in witnesses. -/
def demoCreate : ChatRoom × ChatState :=
  createRoom initialState ("Rm".toList) ("Jane".toList) ("h0".toList) ("r0".toList)
    ("ABCDEF".toList) ("m0".toList) 1 1

/-- A concrete createRoom call whose host name carries surrounding spaces,
which createRoom stores untrimmed. -/
def demoCreateUntrimmed : ChatRoom × ChatState :=
  createRoom initialState ("Rm".toList) (" jane ".toList) ("h0".toList) ("r0".toList)
    ("ABCDEF".toList) ("m0".toList) 1 1

/-- The state after the demo room is created and then ended by its host. -/
def demoEndedState : ChatState := endRoom demoCreate.2 ("m2".toList) 7

/-- A concrete host user named Eve. -/
def userEveHost : User :=
  { id := "he".toList, name := "Eve".toList, displayChar := ['H'], role := .host }

/-- A concrete ended room with code ABC123. -/
def roomEndedDemo : ChatRoom :=
  { id := "e1".toList, name := "Old".toList, createdAt := 1, endedAt := some 5,
    hostId := "he".toList,
    participants := [userEveHost],
    messages := [], code := "ABC123".toList }

/-- A concrete room that is still open and happens to carry the same code
ABC123 (the generator does not guarantee distinct codes). -/
def roomOpenDemo : ChatRoom :=
  { id := "f1".toList, name := "New".toList, createdAt := 2, endedAt := none,
    hostId := "hb".toList,
    participants := [{ id := "hb".toList, name := "Bob".toList,
                       displayChar := ['H'], role := .host }],
    messages := [], code := "ABC123".toList }

/-- A state holding both rooms with the shared code. -/
def stateSharedCode : ChatState :=
  { currentUser := none, activeRoom := none,
    savedRooms := [roomEndedDemo, roomOpenDemo] }

/-- A state whose active room has ended. -/
def stateEndedActive : ChatState :=
  { currentUser := some userEveHost
    activeRoom := some roomEndedDemo
    savedRooms := [roomEndedDemo] }

/-- C3: getDisplayChar returns A for the empty name; for a name starting with
character c, with L its uppercased form, it returns the one-character string L
when no current participant displayChar starts with L, and L followed by the
decimal rendering of k + 1 when exactly k > 0 participant displayChars start
with L; in particular Jane against no participants gives J, and Jane against
one participant with displayChar J gives J2. -/
theorem c3_getDisplayChar_first_letter_rule :
    (∀ ps, getDisplayChar [] ps = ['A']) ∧
    (∀ c rest ps,
      ((ps.filter fun p => p.displayChar.take 1 == [c.toUpper]).length = 0 →
        getDisplayChar (c :: rest) ps = [c.toUpper]) ∧
      (∀ k, 0 < k →
        (ps.filter fun p => p.displayChar.take 1 == [c.toUpper]).length = k →
        getDisplayChar (c :: rest) ps = c.toUpper :: renderNat (k + 1))) ∧
    getDisplayChar ("Jane".toList) [] = ['J'] ∧
    getDisplayChar ("Jane".toList)
      [{ id := ['1'], name := "Jane".toList, displayChar := ['J'],
         role := .participant }] = "J2".toList := by
  refine ⟨fun ps => rfl, fun c rest ps => ⟨?_, ?_⟩, by decide, by decide⟩
  · intro h
    simp [getDisplayChar, h]
  · intro k hk hcount
    simp only [getDisplayChar, hcount]
    rw [if_pos hk]

/-- Witness for C3: the general rule applied to the concrete name Zoe and a
participant list already containing one displayChar Z. -/
theorem c3_getDisplayChar_first_letter_rule_witness :
    getDisplayChar ("Zoe".toList)
      [{ id := ['9'], name := "Zara".toList, displayChar := ['Z'],
         role := .participant }] = 'Z' :: renderNat 2 :=
  (c3_getDisplayChar_first_letter_rule.2.1 'Z' ("oe".toList)
      [{ id := ['9'], name := "Zara".toList, displayChar := ['Z'],
         role := .participant }]).2 1 (by decide) (by decide)

/-- C2: for inputs that are non-empty after trimming, createRoom returns a
room whose participant list is exactly the host user (role host, displayChar
H, id equal to the room's hostId) and whose message list is exactly one
system message announcing the creation and the code; the room is appended to
savedRooms, becomes the active room, and the host becomes the current user. -/
theorem c2_createRoom_creates_host_room (s : ChatState)
    (name hostName hostId roomId roomCode msgId : JStr) (t1 t2 : Nat)
    (hname : jsTrim name ≠ ([] : JStr)) (hhostName : jsTrim hostName ≠ ([] : JStr)) :
    (createRoom s name hostName hostId roomId roomCode msgId t1 t2).1.participants =
      [{ id := hostId, name := hostName, displayChar := ['H'], role := UserRole.host }] ∧
    (createRoom s name hostName hostId roomId roomCode msgId t1 t2).1.hostId = hostId ∧
    (createRoom s name hostName hostId roomId roomCode msgId t1 t2).1.messages =
      [{ id := msgId
         senderId := "system".toList
         senderDisplayChar := ['S']
         content := "Room \"".toList ++ name ++ "\" created. Share code: ".toList ++ roomCode
         timestamp := t2
         isSystem := some true }] ∧
    (createRoom s name hostName hostId roomId roomCode msgId t1 t2).1.code = roomCode ∧
    (createRoom s name hostName hostId roomId roomCode msgId t1 t2).2.savedRooms =
      s.savedRooms ++ [(createRoom s name hostName hostId roomId roomCode msgId t1 t2).1] ∧
    (createRoom s name hostName hostId roomId roomCode msgId t1 t2).2.activeRoom =
      some (createRoom s name hostName hostId roomId roomCode msgId t1 t2).1 ∧
    (createRoom s name hostName hostId roomId roomCode msgId t1 t2).2.currentUser =
      some { id := hostId, name := hostName, displayChar := ['H'], role := UserRole.host } :=
  ⟨rfl, rfl, rfl, rfl, rfl, rfl, rfl⟩

/-- Witness for C2: instantiation at the concrete inputs Standup and Alice. -/
theorem c2_createRoom_creates_host_room_witness :
    (createRoom initialState ("Standup".toList) ("Alice".toList) ("h1".toList)
        ("r1".toList) ("ABC123".toList) ("m1".toList) 10 11).1.participants =
      [{ id := "h1".toList, name := "Alice".toList, displayChar := ['H'],
         role := UserRole.host }] :=
  (c2_createRoom_creates_host_room initialState ("Standup".toList) ("Alice".toList)
    ("h1".toList) ("r1".toList) ("ABC123".toList) ("m1".toList) 10 11
    (by decide) (by decide)).1

/-- C10: createRoom validates nothing: for every pair of input strings,
including empty ones, it returns a room whose name is the name argument
exactly as passed and whose single participant carries the hostName argument
exactly as passed (untrimmed), and it performs all its effects
unconditionally. -/
theorem c10_createRoom_no_validation (s : ChatState)
    (name hostName hostId roomId roomCode msgId : JStr) (t1 t2 : Nat) :
    (createRoom s name hostName hostId roomId roomCode msgId t1 t2).1.name = name ∧
    (createRoom s name hostName hostId roomId roomCode msgId t1 t2).1.participants =
      [{ id := hostId, name := hostName, displayChar := ['H'], role := UserRole.host }] ∧
    (createRoom s name hostName hostId roomId roomCode msgId t1 t2).2.savedRooms =
      s.savedRooms ++ [(createRoom s name hostName hostId roomId roomCode msgId t1 t2).1] ∧
    (createRoom s name hostName hostId roomId roomCode msgId t1 t2).2.activeRoom =
      some (createRoom s name hostName hostId roomId roomCode msgId t1 t2).1 ∧
    (createRoom s name hostName hostId roomId roomCode msgId t1 t2).2.currentUser =
      some { id := hostId, name := hostName, displayChar := ['H'], role := UserRole.host } :=
  ⟨rfl, rfl, rfl, rfl, rfl⟩

/-- C9: leaveRoom with no current user is a no-op returning the state
unchanged, and a second leaveRoom immediately after any leaveRoom changes
nothing further. -/
theorem c9_leaveRoom_idempotent (s : ChatState) (msgId msgId2 : JStr) (t t2 : Nat) :
    (s.currentUser = none → leaveRoom s msgId t = s) ∧
    leaveRoom (leaveRoom s msgId t) msgId2 t2 = leaveRoom s msgId t := by
  constructor
  · intro h
    cases ha : s.activeRoom <;> simp [leaveRoom, ha, h]
  · cases ha : s.activeRoom with
    | none => simp [leaveRoom, ha]
    | some a =>
      cases hu : s.currentUser with
      | none => simp [leaveRoom, ha, hu]
      | some u =>
        by_cases hrole : u.role = UserRole.host
        · simp [leaveRoom, endRoom, ha, hu, hrole]
        · simp [leaveRoom, ha, hu, hrole]

/-- Witness for C9: both conjuncts at the initial state, where no current
user exists. -/
theorem c9_leaveRoom_idempotent_witness :
    leaveRoom initialState ("m".toList) 5 = initialState ∧
    leaveRoom (leaveRoom initialState ("m".toList) 5) ("m2".toList) 6 =
      leaveRoom initialState ("m".toList) 5 :=
  ⟨(c9_leaveRoom_idempotent initialState ("m".toList) ("m2".toList) 5 6).1 rfl,
   (c9_leaveRoom_idempotent initialState ("m".toList) ("m2".toList) 5 6).2⟩

/-- C6 fails on the code: when Math.random() returns 0.5, whose base-36
string is 0.i, generateRoomCode returns the single-character string I rather
than a 6-character code, contradicting both the claim and the comment in the
source that announces a 6-character room code. -/
theorem c6_generateRoomCode_one_char :
    generateRoomCode [(18 : Fin 36)] = ['I'] ∧
    (generateRoomCode [(18 : Fin 36)]).length ≠ 6 := by decide

lemma replaceById_map_id (rooms : List ChatRoom) (u : ChatRoom) :
    (replaceById rooms u).map ChatRoom.id = rooms.map ChatRoom.id := by
  unfold replaceById
  rw [List.map_map]
  apply List.map_congr_left
  intro r _
  by_cases h : (r.id == u.id) = true
  · have hid : r.id = u.id := by simpa using h
    simp [Function.comp, h, hid]
  · simp [Function.comp, h]

lemma replaceById_length (rooms : List ChatRoom) (u : ChatRoom) :
    (replaceById rooms u).length = rooms.length := by
  simp [replaceById]

lemma mem_replaceById_of_ne {rooms : List ChatRoom} {u r : ChatRoom}
    (hr : r ∈ rooms) (hne : r.id ≠ u.id) : r ∈ replaceById rooms u := by
  unfold replaceById
  refine List.mem_map.2 ⟨r, hr, ?_⟩
  simp [hne]

lemma self_mem_replaceById {rooms : List ChatRoom} {u r : ChatRoom}
    (hr : r ∈ rooms) (heq : r.id = u.id) : u ∈ replaceById rooms u := by
  unfold replaceById
  refine List.mem_map.2 ⟨r, hr, ?_⟩
  simp [heq]

lemma mem_replaceById {rooms : List ChatRoom} {u x : ChatRoom}
    (hx : x ∈ replaceById rooms u) : x = u ∨ (x ∈ rooms ∧ x.id ≠ u.id) := by
  unfold replaceById at hx
  obtain ⟨r, hr, hfr⟩ := List.mem_map.1 hx
  by_cases h : (r.id == u.id) = true
  · rw [if_pos h] at hfr
    exact Or.inl hfr.symm
  · rw [if_neg h] at hfr
    subst hfr
    exact Or.inr ⟨hr, by simpa using h⟩

lemma eq_of_mem_of_id_eq {rooms : List ChatRoom}
    (hnd : (rooms.map ChatRoom.id).Nodup) {a b : ChatRoom}
    (ha : a ∈ rooms) (hb : b ∈ rooms) (hid : a.id = b.id) : a = b :=
  List.inj_on_of_nodup_map hnd ha hb hid

lemma findTargetRoom_spec {s : ChatState} {fc : JStr} {target : ChatRoom}
    (h : findTargetRoom s fc = some target) :
    (s.activeRoom = some target ∨ target ∈ s.savedRooms) ∧
    target.code = fc ∧ target.endedAt = none := by
  unfold findTargetRoom at h
  cases ha : s.activeRoom with
  | none =>
    rw [ha] at h
    dsimp only at h
    have hm := List.mem_of_find?_eq_some h
    have hp := List.find?_some h
    simp only [Bool.and_eq_true, beq_iff_eq] at hp
    exact ⟨Or.inr hm, hp.1, hp.2⟩
  | some a =>
    rw [ha] at h
    dsimp only at h
    by_cases hc : (a.code == fc && a.endedAt == none) = true
    · rw [if_pos hc] at h
      have haT : a = target := by simpa using h
      subst haT
      simp only [Bool.and_eq_true, beq_iff_eq] at hc
      exact ⟨Or.inl rfl, hc.1, hc.2⟩
    · rw [if_neg hc] at h
      have hm := List.mem_of_find?_eq_some h
      have hp := List.find?_some h
      simp only [Bool.and_eq_true, beq_iff_eq] at hp
      exact ⟨Or.inr hm, hp.1, hp.2⟩

lemma joinRoom_cases (s : ChatState) (code userName userId msgId : JStr) (t : Nat) :
    joinRoom s code userName userId msgId t = (false, s) ∨
    ∃ target, findTargetRoom s (formatCode code) = some target ∧
      target.endedAt = none ∧
      (∀ p ∈ target.participants, jsLower p.name ≠ jsLower (jsTrim userName)) ∧
      joinRoom s code userName userId msgId t =
        (true,
          { currentUser := some (joinUser userName userId target)
            activeRoom := some (joinUpdatedRoom userName userId msgId target t)
            savedRooms := replaceById s.savedRooms
              (joinUpdatedRoom userName userId msgId target t) }) := by
  unfold joinRoom
  by_cases h0 : (code == ([] : JStr) || userName == ([] : JStr) ||
      jsTrim userName == ([] : JStr)) = true
  · left
    rw [if_pos h0]
  · rw [if_neg h0]
    cases hft : findTargetRoom s (formatCode code) with
    | none => exact Or.inl rfl
    | some target =>
      dsimp only
      by_cases hend : (target.endedAt != none) = true
      · left
        rw [if_pos hend]
      · rw [if_neg hend]
        by_cases hdup : (target.participants.find?
            (fun p => jsLower p.name == jsLower (jsTrim userName))).isSome = true
        · left
          rw [if_pos hdup]
        · rw [if_neg hdup]
          right
          refine ⟨target, rfl, ?_, ?_, rfl⟩
          · simpa using hend
          · intro p hp
            have hnone : target.participants.find?
                (fun p => jsLower p.name == jsLower (jsTrim userName)) = none :=
              Option.not_isSome_iff_eq_none.1 (by simpa using hdup)
            have := List.find?_eq_none.1 hnone p hp
            simpa using this

lemma sendMessage_cases (s : ChatState) (content msgId : JStr) (t : Nat) :
    sendMessage s content msgId t = (false, s) ∨
    ∃ a u, s.activeRoom = some a ∧ s.currentUser = some u ∧ a.endedAt = none ∧
      sendMessage s content msgId t =
        (true,
          { s with
              activeRoom := some (sendUpdatedRoom a u content msgId t)
              savedRooms := replaceById s.savedRooms
                (sendUpdatedRoom a u content msgId t) }) := by
  unfold sendMessage
  by_cases h0 : (content == ([] : JStr) || jsTrim content == ([] : JStr)) = true
  · left
    rw [if_pos h0]
  · rw [if_neg h0]
    cases ha : s.activeRoom with
    | none => exact Or.inl rfl
    | some a =>
      cases hu : s.currentUser with
      | none => exact Or.inl rfl
      | some u =>
        dsimp only
        by_cases hend : (a.endedAt != none) = true
        · left
          rw [if_pos hend]
        · rw [if_neg hend]
          exact Or.inr ⟨a, u, rfl, rfl, by simpa using hend, rfl⟩

lemma inv_createRoom {s : ChatState} (h : Inv s)
    (name hostName hostId roomId roomCode msgId : JStr) (t1 t2 : Nat)
    (hfresh : roomId ∉ s.savedRooms.map ChatRoom.id) :
    Inv (createRoom s name hostName hostId roomId roomCode msgId t1 t2).2 := by
  obtain ⟨hnd, _⟩ := h
  constructor
  · show ((s.savedRooms ++
      [(createRoom s name hostName hostId roomId roomCode msgId t1 t2).1]).map
        ChatRoom.id).Nodup
    rw [List.map_append, List.nodup_append]
    refine ⟨hnd, List.nodup_singleton _, ?_⟩
    intro x hx hx'
    have hxid : x = roomId := by simpa using hx'
    subst hxid
    exact hfresh hx
  · intro a ha
    have haR : (createRoom s name hostName hostId roomId roomCode msgId t1 t2).1 = a :=
      Option.some.inj ha
    subst haR
    refine ⟨List.mem_append_right _ (List.mem_singleton_self _), ?_⟩
    intro r hr hrid
    rcases List.mem_append.1 hr with hr | hr
    · exfalso
      apply hfresh
      have : r.id = roomId := hrid
      exact this ▸ List.mem_map_of_mem _ hr
    · exact List.mem_singleton.1 hr

lemma inv_joinRoom {s : ChatState} (h : Inv s)
    (code userName userId msgId : JStr) (t : Nat) :
    Inv (joinRoom s code userName userId msgId t).2 := by
  rcases joinRoom_cases s code userName userId msgId t with heq |
    ⟨target, hft, _, _, heq⟩
  · rw [heq]; exact h
  · rw [heq]
    obtain ⟨hnd, hact⟩ := h
    have htmem : target ∈ s.savedRooms := by
      rcases (findTargetRoom_spec hft).1 with hA | hm
      · exact (hact target hA).1
      · exact hm
    have hUid : (joinUpdatedRoom userName userId msgId target t).id = target.id := rfl
    constructor
    · show ((replaceById s.savedRooms
        (joinUpdatedRoom userName userId msgId target t)).map ChatRoom.id).Nodup
      rw [replaceById_map_id]; exact hnd
    · intro a ha
      have haU : joinUpdatedRoom userName userId msgId target t = a :=
        Option.some.inj ha
      subst haU
      refine ⟨self_mem_replaceById htmem hUid.symm, ?_⟩
      intro r hr hrid
      rcases mem_replaceById hr with hru | ⟨_, hrne⟩
      · exact hru
      · exact absurd hrid hrne

lemma inv_sendMessage {s : ChatState} (h : Inv s)
    (content msgId : JStr) (t : Nat) :
    Inv (sendMessage s content msgId t).2 := by
  rcases sendMessage_cases s content msgId t with heq | ⟨a, u, ha, _, _, heq⟩
  · rw [heq]; exact h
  · rw [heq]
    obtain ⟨hnd, hact⟩ := h
    have hamem : a ∈ s.savedRooms := (hact a ha).1
    have hUid : (sendUpdatedRoom a u content msgId t).id = a.id := rfl
    constructor
    · show ((replaceById s.savedRooms (sendUpdatedRoom a u content msgId t)).map
        ChatRoom.id).Nodup
      rw [replaceById_map_id]; exact hnd
    · intro a' ha'
      have haU : sendUpdatedRoom a u content msgId t = a' := Option.some.inj ha'
      subst haU
      refine ⟨self_mem_replaceById hamem hUid.symm, ?_⟩
      intro r hr hrid
      rcases mem_replaceById hr with hru | ⟨_, hrne⟩
      · exact hru
      · exact absurd hrid hrne

lemma endRoom_cases (s : ChatState) (msgId : JStr) (t : Nat) :
    endRoom s msgId t = s ∨
    ∃ a u, s.activeRoom = some a ∧ s.currentUser = some u ∧
      u.role = UserRole.host ∧
      endRoom s msgId t =
        { currentUser := none
          activeRoom := none
          savedRooms :=
            if (s.savedRooms.any fun r => r.id == (endedRoomOf a msgId t).id) = true then
              replaceById s.savedRooms (endedRoomOf a msgId t)
            else s.savedRooms ++ [endedRoomOf a msgId t] } := by
  unfold endRoom
  cases ha : s.activeRoom with
  | none => exact Or.inl rfl
  | some a =>
    cases hu : s.currentUser with
    | none => exact Or.inl rfl
    | some u =>
      dsimp only
      by_cases hrole : u.role = UserRole.host
      · rw [if_pos hrole]
        exact Or.inr ⟨a, u, rfl, rfl, hrole, rfl⟩
      · rw [if_neg hrole]
        exact Or.inl rfl

lemma leaveRoom_cases (s : ChatState) (msgId : JStr) (t : Nat) :
    leaveRoom s msgId t = s ∨
    (∃ u, s.currentUser = some u ∧ u.role = UserRole.host ∧
      leaveRoom s msgId t = endRoom s msgId t) ∨
    ∃ a u, s.activeRoom = some a ∧ s.currentUser = some u ∧
      u.role ≠ UserRole.host ∧
      leaveRoom s msgId t =
        { currentUser := none
          activeRoom := some (leaveUpdatedRoom a u msgId t)
          savedRooms := replaceById s.savedRooms (leaveUpdatedRoom a u msgId t) } := by
  unfold leaveRoom
  cases ha : s.activeRoom with
  | none => exact Or.inl rfl
  | some a =>
    cases hu : s.currentUser with
    | none => exact Or.inl rfl
    | some u =>
      dsimp only
      by_cases hrole : u.role = UserRole.host
      · rw [if_pos hrole]
        exact Or.inr (Or.inl ⟨u, rfl, hrole, rfl⟩)
      · rw [if_neg hrole]
        exact Or.inr (Or.inr ⟨a, u, rfl, rfl, hrole, rfl⟩)

lemma inv_endRoom {s : ChatState} (h : Inv s) (msgId : JStr) (t : Nat) :
    Inv (endRoom s msgId t) := by
  rcases endRoom_cases s msgId t with heq | ⟨a, u, ha, hu, hrole, heq⟩
  · rw [heq]; exact h
  · rw [heq]
    obtain ⟨hnd, _⟩ := h
    refine ⟨?_, fun a' h' => by simp at h'⟩
    by_cases hex : (s.savedRooms.any fun r => r.id == (endedRoomOf a msgId t).id) = true
    · rw [if_pos hex]
      show ((replaceById s.savedRooms (endedRoomOf a msgId t)).map ChatRoom.id).Nodup
      rw [replaceById_map_id]; exact hnd
    · rw [if_neg hex]
      rw [List.map_append, List.nodup_append]
      refine ⟨hnd, List.nodup_singleton _, ?_⟩
      intro x hx hx'
      have hxid : x = (endedRoomOf a msgId t).id := by simpa using hx'
      subst hxid
      rw [Bool.not_eq_true, List.any_eq_false] at hex
      obtain ⟨r, hr, hrid⟩ := List.mem_map.1 hx
      exact absurd (by simpa using hrid) (by simpa using hex r hr)

lemma inv_leaveRoom {s : ChatState} (h : Inv s) (msgId : JStr) (t : Nat) :
    Inv (leaveRoom s msgId t) := by
  rcases leaveRoom_cases s msgId t with heq | ⟨u, hu, hrole, heq⟩ |
    ⟨a, u, ha, hu, hrole, heq⟩
  · rw [heq]; exact h
  · rw [heq]; exact inv_endRoom h msgId t
  · rw [heq]
    obtain ⟨hnd, hact⟩ := h
    have hamem : a ∈ s.savedRooms := (hact a ha).1
    have hUid : (leaveUpdatedRoom a u msgId t).id = a.id := rfl
    constructor
    · show ((replaceById s.savedRooms (leaveUpdatedRoom a u msgId t)).map
        ChatRoom.id).Nodup
      rw [replaceById_map_id]; exact hnd
    · intro a' ha'
      have haU : leaveUpdatedRoom a u msgId t = a' := Option.some.inj ha'
      subst haU
      refine ⟨self_mem_replaceById hamem hUid.symm, ?_⟩
      intro r hr hrid
      rcases mem_replaceById hr with hru | ⟨_, hrne⟩
      · exact hru
      · exact absurd hrid hrne

lemma inv_step {s s' : ChatState} (h : Inv s) (hs : Step s s') : Inv s' := by
  cases hs with
  | create name hostName hostId roomId roomCode msgId t1 t2 hfresh =>
    exact inv_createRoom h name hostName hostId roomId roomCode msgId t1 t2 hfresh
  | join code userName userId msgId t => exact inv_joinRoom h code userName userId msgId t
  | send content msgId t => exact inv_sendMessage h content msgId t
  | endTheRoom msgId t => exact inv_endRoom h msgId t
  | leave msgId t => exact inv_leaveRoom h msgId t
  | setUser u => exact ⟨h.1, fun a h' => h.2 a h'⟩

lemma reachable_inv {s : ChatState} (h : Reachable s) : Inv s := by
  induction h with
  | init => exact ⟨List.nodup_nil, fun a h' => by simp [initialState] at h'⟩
  | step _ hs ih => exact inv_step ih hs

lemma msgsExtend_refl (l : List Message) : MsgsExtend l l :=
  ⟨[], (List.append_nil l).symm⟩

lemma msgsExtend_append (l tail : List Message) : MsgsExtend l (l ++ tail) :=
  ⟨tail, rfl⟩

lemma forall₂_take_append (rooms extra : List ChatRoom) :
    List.Forall₂ (fun r r' => r'.id = r.id ∧ MsgsExtend r.messages r'.messages)
      rooms ((rooms ++ extra).take rooms.length) := by
  rw [List.take_left]
  exact List.forall₂_same.2 fun r _ => ⟨rfl, msgsExtend_refl _⟩

lemma forall₂_replaceById (rooms : List ChatRoom) (u : ChatRoom)
    (h : ∀ r ∈ rooms, r.id = u.id → MsgsExtend r.messages u.messages) :
    List.Forall₂ (fun r r' => r'.id = r.id ∧ MsgsExtend r.messages r'.messages)
      rooms (replaceById rooms u) := by
  induction rooms with
  | nil => exact List.Forall₂.nil
  | cons r rest ih =>
    unfold replaceById at *
    simp only [List.map_cons]
    refine List.Forall₂.cons ?_ (ih fun x hx hid => h x (List.mem_cons_of_mem _ hx) hid)
    by_cases hid : (r.id == u.id) = true
    · rw [if_pos hid]
      have hideq : r.id = u.id := by simpa using hid
      exact ⟨hideq.symm, h r (List.mem_cons_self _ _) hideq⟩
    · rw [if_neg hid]
      exact ⟨rfl, msgsExtend_refl _⟩

lemma forall₂_take_replaceById (rooms : List ChatRoom) (u : ChatRoom)
    (h : ∀ r ∈ rooms, r.id = u.id → MsgsExtend r.messages u.messages) :
    List.Forall₂ (fun r r' => r'.id = r.id ∧ MsgsExtend r.messages r'.messages)
      rooms ((replaceById rooms u).take rooms.length) := by
  rw [show rooms.length = (replaceById rooms u).length from
    (replaceById_length rooms u).symm, List.take_length]
  exact forall₂_replaceById rooms u h

lemma appendOnly_refl (s : ChatState) : AppendOnly s s := by
  refine ⟨le_refl _, ?_, ?_⟩
  · rw [List.take_length]
    exact List.forall₂_same.2 fun r _ => ⟨rfl, msgsExtend_refl _⟩
  · intro a a' ha ha' _
    rw [ha] at ha'
    have : a = a' := Option.some.inj ha'
    subst this
    exact msgsExtend_refl _

lemma appendOnly_endRoom {s : ChatState} (h : Inv s) (msgId : JStr) (t : Nat) :
    AppendOnly s (endRoom s msgId t) := by
  rcases endRoom_cases s msgId t with heq | ⟨a, u, ha, hu, hrole, heq⟩
  · rw [heq]; exact appendOnly_refl s
  · rw [heq]
    obtain ⟨hnd, hact⟩ := h
    have hext : ∀ r ∈ s.savedRooms, r.id = (endedRoomOf a msgId t).id →
        MsgsExtend r.messages (endedRoomOf a msgId t).messages := by
      intro r hr hrid
      have hra : r = a := (hact a ha).2 r hr hrid
      subst hra
      exact msgsExtend_append _ _
    by_cases hex : (s.savedRooms.any fun r => r.id == (endedRoomOf a msgId t).id) = true
    · rw [if_pos hex]
      exact ⟨by rw [replaceById_length], forall₂_take_replaceById _ _ hext,
        fun a1 a2 _ h2 _ => by simp at h2⟩
    · rw [if_neg hex]
      exact ⟨by simp, forall₂_take_append _ _, fun a1 a2 _ h2 _ => by simp at h2⟩

/-- C5: from any reachable state, every store operation only ever appends to
message lists: savedRooms never shrinks, every surviving saved slot keeps its
room id and extends its messages by a suffix, and the active room, when its
identity is preserved, extends its messages by a suffix. -/
theorem c5_messages_append_only {s s' : ChatState}
    (hreach : Reachable s) (hstep : Step s s') : AppendOnly s s' := by
  obtain ⟨hnd, hact⟩ := reachable_inv hreach
  cases hstep with
  | create name hostName hostId roomId roomCode msgId t1 t2 hfresh =>
    refine ⟨by simp [createRoom], forall₂_take_append s.savedRooms _, ?_⟩
    intro a a' ha ha' hid
    exfalso
    apply hfresh
    have ha'R : (createRoom s name hostName hostId roomId roomCode msgId t1 t2).1 = a' :=
      Option.some.inj ha'
    have hidr : a.id = roomId := by
      rw [← hid, ← ha'R]
      rfl
    exact hidr ▸ List.mem_map_of_mem _ (hact a ha).1
  | join code userName userId msgId t =>
    rcases joinRoom_cases s code userName userId msgId t with heq |
      ⟨target, hft, _, _, heq⟩
    · rw [heq]; exact appendOnly_refl s
    · rw [heq]
      have htarget : ∀ r, s.activeRoom = some r ∨ r ∈ s.savedRooms → r.id = target.id →
          r = target := by
        intro r hr hrid
        rcases (findTargetRoom_spec hft).1 with htA | htS
        · rcases hr with hrA | hrS
          · rw [htA] at hrA
            exact Option.some.inj hrA.symm |>.symm ▸ (Option.some.inj hrA).symm
          · exact (hact target htA).2 r hrS (by rw [hrid])
        · rcases hr with hrA | hrS
          · exact ((hact r hrA).2 target htS hrid.symm).symm
          · exact eq_of_mem_of_id_eq hnd hrS htS hrid
      have hext : ∀ r ∈ s.savedRooms,
          r.id = (joinUpdatedRoom userName userId msgId target t).id →
          MsgsExtend r.messages (joinUpdatedRoom userName userId msgId target t).messages := by
        intro r hr hrid
        have : r = target := htarget r (Or.inr hr) hrid
        subst this
        exact msgsExtend_append _ _
      refine ⟨by rw [replaceById_length], forall₂_take_replaceById _ _ hext, ?_⟩
      intro a a' ha ha' hid
      have ha'U : joinUpdatedRoom userName userId msgId target t = a' :=
        Option.some.inj ha'
      have haT : a = target := htarget a (Or.inl ha) (by rw [← hid, ← ha'U]; rfl)
      subst haT
      rw [← ha'U]
      exact msgsExtend_append _ _
  | send content msgId t =>
    rcases sendMessage_cases s content msgId t with heq | ⟨a, u, ha, hu, _, heq⟩
    · rw [heq]; exact appendOnly_refl s
    · rw [heq]
      have hext : ∀ r ∈ s.savedRooms,
          r.id = (sendUpdatedRoom a u content msgId t).id →
          MsgsExtend r.messages (sendUpdatedRoom a u content msgId t).messages := by
        intro r hr hrid
        have hra : r = a := (hact a ha).2 r hr hrid
        subst hra
        exact msgsExtend_append _ _
      refine ⟨by rw [replaceById_length], forall₂_take_replaceById _ _ hext, ?_⟩
      intro a1 a' ha1 ha' _
      rw [ha] at ha1
      have : a = a1 := Option.some.inj ha1
      subst this
      have ha'U : sendUpdatedRoom a u content msgId t = a' := Option.some.inj ha'
      rw [← ha'U]
      exact msgsExtend_append _ _
  | endTheRoom msgId t => exact appendOnly_endRoom ⟨hnd, hact⟩ msgId t
  | leave msgId t =>
    rcases leaveRoom_cases s msgId t with heq | ⟨u, hu, hrole, heq⟩ |
      ⟨a, u, ha, hu, hrole, heq⟩
    · rw [heq]; exact appendOnly_refl s
    · rw [heq]; exact appendOnly_endRoom ⟨hnd, hact⟩ msgId t
    · rw [heq]
      have hext : ∀ r ∈ s.savedRooms, r.id = (leaveUpdatedRoom a u msgId t).id →
          MsgsExtend r.messages (leaveUpdatedRoom a u msgId t).messages := by
        intro r hr hrid
        have hra : r = a := (hact a ha).2 r hr hrid
        subst hra
        exact msgsExtend_append _ _
      refine ⟨by rw [replaceById_length], forall₂_take_replaceById _ _ hext, ?_⟩
      intro a1 a' ha1 ha' _
      rw [ha] at ha1
      have : a = a1 := Option.some.inj ha1
      subst this
      have ha'U : leaveUpdatedRoom a u msgId t = a' := Option.some.inj ha'
      rw [← ha'U]
      exact msgsExtend_append _ _
  | setUser u => exact appendOnly_refl s

lemma noDupNames_joinUpdatedRoom {target : ChatRoom} (userName userId msgId : JStr)
    (t : Nat) (h : NoDupNames target)
    (hnames : ∀ p ∈ target.participants, jsLower p.name ≠ jsLower (jsTrim userName)) :
    NoDupNames (joinUpdatedRoom userName userId msgId target t) := by
  unfold NoDupNames joinUpdatedRoom
  dsimp only
  rw [List.pairwise_append]
  refine ⟨h, List.pairwise_singleton _ _, ?_⟩
  intro p hp q hq
  have hq' : q = joinUser userName userId target := List.mem_singleton.1 hq
  subst hq'
  exact hnames p hp

lemma namesOK_endRoom {s : ChatState} (h : NamesOK s) (msgId : JStr) (t : Nat) :
    NamesOK (endRoom s msgId t) := by
  rcases endRoom_cases s msgId t with heq | ⟨a, u, ha, hu, hrole, heq⟩
  · rw [heq]; exact h
  · rw [heq]
    intro r hr
    rcases hr with hr | hr
    · have hEnded : NoDupNames (endedRoomOf a msgId t) := h a (Or.inr ha)
      by_cases hex : (s.savedRooms.any fun x => x.id == (endedRoomOf a msgId t).id) = true
      · rw [if_pos hex] at hr
        rcases mem_replaceById hr with hru | ⟨hmem, _⟩
        · rw [hru]; exact hEnded
        · exact h r (Or.inl hmem)
      · rw [if_neg hex] at hr
        rcases List.mem_append.1 hr with hmem | hmem
        · exact h r (Or.inl hmem)
        · rw [List.mem_singleton.1 hmem]; exact hEnded
    · simp at hr

lemma namesOK_step {s s' : ChatState} (h : NamesOK s) (hstep : Step s s') :
    NamesOK s' := by
  cases hstep with
  | create name hostName hostId roomId roomCode msgId t1 t2 hfresh =>
    intro r hr
    have hNew : NoDupNames (createRoom s name hostName hostId roomId roomCode msgId t1 t2).1 :=
      List.pairwise_singleton _ _
    rcases hr with hr | hr
    · rcases List.mem_append.1 hr with hmem | hmem
      · exact h r (Or.inl hmem)
      · rw [List.mem_singleton.1 hmem]; exact hNew
    · rw [← Option.some.inj hr]; exact hNew
  | join code userName userId msgId t =>
    rcases joinRoom_cases s code userName userId msgId t with heq |
      ⟨target, hft, _, hnames, heq⟩
    · rw [heq]; exact h
    · rw [heq]
      have htargetOK : NoDupNames target := by
        rcases (findTargetRoom_spec hft).1 with htA | htS
        · exact h target (Or.inr htA)
        · exact h target (Or.inl htS)
      have hU : NoDupNames (joinUpdatedRoom userName userId msgId target t) :=
        noDupNames_joinUpdatedRoom userName userId msgId t htargetOK hnames
      intro r hr
      rcases hr with hr | hr
      · rcases mem_replaceById hr with hru | ⟨hmem, _⟩
        · rw [hru]; exact hU
        · exact h r (Or.inl hmem)
      · rw [← Option.some.inj hr]; exact hU
  | send content msgId t =>
    rcases sendMessage_cases s content msgId t with heq | ⟨a, u, ha, hu, _, heq⟩
    · rw [heq]; exact h
    · rw [heq]
      have hU : NoDupNames (sendUpdatedRoom a u content msgId t) := h a (Or.inr ha)
      intro r hr
      rcases hr with hr | hr
      · rcases mem_replaceById hr with hru | ⟨hmem, _⟩
        · rw [hru]; exact hU
        · exact h r (Or.inl hmem)
      · rw [← Option.some.inj hr]; exact hU
  | endTheRoom msgId t => exact namesOK_endRoom h msgId t
  | leave msgId t =>
    rcases leaveRoom_cases s msgId t with heq | ⟨u, hu, hrole, heq⟩ |
      ⟨a, u, ha, hu, hrole, heq⟩
    · rw [heq]; exact h
    · rw [heq]; exact namesOK_endRoom h msgId t
    · rw [heq]
      have hU : NoDupNames (leaveUpdatedRoom a u msgId t) :=
        List.Pairwise.sublist (List.filter_sublist _) (h a (Or.inr ha))
      intro r hr
      rcases hr with hr | hr
      · rcases mem_replaceById hr with hru | ⟨hmem, _⟩
        · rw [hru]; exact hU
        · exact h r (Or.inl hmem)
      · rw [← Option.some.inj hr]; exact hU
  | setUser u =>
    intro r hr
    exact h r hr

lemma reachable_namesOK {s : ChatState} (h : Reachable s) : NamesOK s := by
  induction h with
  | init =>
    intro r hr
    rcases hr with hr | hr <;> simp [initialState] at hr
  | step _ hs ih => exact namesOK_step ih hs

/-- Witness for C5: the append-only property across the first createRoom
step from the initial state. -/
theorem c5_messages_append_only_witness :
    AppendOnly initialState
      (createRoom initialState ("Standup".toList) ("Alice".toList) ("h1".toList)
        ("r1".toList) ("ABC123".toList) ("m1".toList) 10 11).2 :=
  c5_messages_append_only Reachable.init
    (Step.create initialState ("Standup".toList) ("Alice".toList) ("h1".toList)
      ("r1".toList) ("ABC123".toList) ("m1".toList) 10 11 (by simp [initialState]))

/-- C4 fails as stated: in the reachable state created with the untrimmed
host name ( jane ), the room contains a participant whose trimmed lowercased
name equals the trimmed lowercased requested name jane, yet joinRoom
succeeds, because the source lowercases but never trims the existing
participant name before comparing. -/
theorem c4_counterexample :
    (∃ p ∈ demoCreateUntrimmed.1.participants,
        jsLower (jsTrim p.name) = jsLower (jsTrim ("jane".toList))) ∧
    (joinRoom demoCreateUntrimmed.2 ("ABCDEF".toList) ("jane".toList) ("u2".toList)
        ("m2".toList) 9).1 = true := by decide

/-- C4 amended: joinRoom returns false without mutating the state whenever
the target room contains a participant whose lowercased (but not trimmed)
name equals the lowercased trimmed requested name; consequently in every
reachable state no two participants of a room have equal lowercased names. -/
theorem c4_join_duplicate_name_rejected :
    (∀ s code userName userId msgId t target,
      findTargetRoom s (formatCode code) = some target →
      (∃ p ∈ target.participants, jsLower p.name = jsLower (jsTrim userName)) →
      joinRoom s code userName userId msgId t = (false, s)) ∧
    (∀ s, Reachable s → NamesOK s) := by
  constructor
  · intro s code userName userId msgId t target hft hex
    rcases joinRoom_cases s code userName userId msgId t with heq |
      ⟨t2, hft2, _, hnames, _⟩
    · exact heq
    · exfalso
      obtain ⟨p, hp, hpe⟩ := hex
      rw [hft] at hft2
      have ht : target = t2 := Option.some.inj hft2
      subst ht
      exact hnames p hp hpe
  · intro s hreach
    exact reachable_namesOK hreach

/-- Witness for C4 amended: joining as jane is rejected in the room whose
host is named Jane, and the created demo room has pairwise distinct
lowercased participant names. -/
theorem c4_join_duplicate_name_rejected_witness :
    joinRoom demoCreate.2 ("ABCDEF".toList) ("jane".toList) ("u2".toList)
      ("m2".toList) 9 = (false, demoCreate.2) ∧
    NoDupNames demoCreate.1 :=
  ⟨c4_join_duplicate_name_rejected.1 demoCreate.2 ("ABCDEF".toList) ("jane".toList)
      ("u2".toList) ("m2".toList) 9 demoCreate.1 (by decide) (by decide),
   c4_join_duplicate_name_rejected.2 demoCreate.2
     (Reachable.step Reachable.init
       (Step.create initialState ("Rm".toList) ("Jane".toList) ("h0".toList)
         ("r0".toList) ("ABCDEF".toList) ("m0".toList) 1 1 (by simp [initialState])))
     demoCreate.1 (Or.inr rfl)⟩

/-- C1 fails as stated: in a state holding an ended room and a different
open room that shares its 6-character code, joinRoom with that code returns
true (it joins the open room), even though a room with that code has
endedAt set. -/
theorem c1_counterexample :
    roomEndedDemo.endedAt ≠ none ∧
    roomEndedDemo ∈ stateSharedCode.savedRooms ∧
    roomOpenDemo.code = roomEndedDemo.code ∧
    (joinRoom stateSharedCode ("ABC123".toList) ("zoe".toList) ("u9".toList)
        ("m9".toList) 9).1 = true := by decide

/-- C1 amended: sendMessage returns false and leaves the state unchanged
when the active room has ended; joinRoom returns false and leaves the state
unchanged when every room carrying the requested code has ended (it can
still succeed against a different non-ended room sharing the code); and in
every reachable state neither operation ever mutates an ended saved room. -/
theorem c1_ended_room_operations_fail :
    (∀ s a, s.activeRoom = some a → a.endedAt ≠ none →
      ∀ content msgId t, sendMessage s content msgId t = (false, s)) ∧
    (∀ s code userName userId msgId t,
      (∀ r, r ∈ s.savedRooms ∨ s.activeRoom = some r →
        r.code = formatCode code → r.endedAt ≠ none) →
      joinRoom s code userName userId msgId t = (false, s)) ∧
    (∀ s, Reachable s → ∀ e ∈ s.savedRooms, e.endedAt ≠ none →
      ∀ code userName userId msgId t content msgId2 t2,
        e ∈ (joinRoom s code userName userId msgId t).2.savedRooms ∧
        e ∈ (sendMessage s content msgId2 t2).2.savedRooms) := by
  refine ⟨?_, ?_, ?_⟩
  · intro s a ha hended content msgId t
    rcases sendMessage_cases s content msgId t with heq | ⟨a2, u, ha2, hu, hend2, heq⟩
    · exact heq
    · exfalso
      rw [ha] at ha2
      rw [← Option.some.inj ha2] at hend2
      exact hended hend2
  · intro s code userName userId msgId t hnone
    rcases joinRoom_cases s code userName userId msgId t with heq |
      ⟨target, hft, _, _, _⟩
    · exact heq
    · exfalso
      obtain ⟨hOr, hcode, hendT⟩ := findTargetRoom_spec hft
      rcases hOr with htA | htS
      · exact hnone target (Or.inr htA) hcode hendT
      · exact hnone target (Or.inl htS) hcode hendT
  · intro s hreach e he hended code userName userId msgId t content msgId2 t2
    obtain ⟨hnd, hact⟩ := reachable_inv hreach
    constructor
    · rcases joinRoom_cases s code userName userId msgId t with heq |
        ⟨target, hft, _, _, heq⟩
      · rw [heq]; exact he
      · rw [heq]
        obtain ⟨hOr, _, hendT⟩ := findTargetRoom_spec hft
        have hne : e.id ≠ (joinUpdatedRoom userName userId msgId target t).id := by
          intro heid
          have heid' : e.id = target.id := heid
          have heT : e = target := by
            rcases hOr with htA | htS
            · exact (hact target htA).2 e he heid'
            · exact eq_of_mem_of_id_eq hnd he htS heid'
          rw [heT] at hended
          exact hended hendT
        exact mem_replaceById_of_ne he hne
    · rcases sendMessage_cases s content msgId2 t2 with heq | ⟨a, u, ha, hu, hendA, heq⟩
      · rw [heq]; exact he
      · rw [heq]
        have hne : e.id ≠ (sendUpdatedRoom a u content msgId2 t2).id := by
          intro heid
          have heid' : e.id = a.id := heid
          have heA : e = a := (hact a ha).2 e he heid'
          rw [heA] at hended
          exact hended hendA
        exact mem_replaceById_of_ne he hne

/-- Witness for C1 amended: concrete applications of all three conjuncts,
including preservation of the concrete ended room across a join attempt in
the reachable two-step state. -/
theorem c1_ended_room_operations_fail_witness :
    sendMessage stateEndedActive ("hi".toList) ("m".toList) 1 =
      (false, stateEndedActive) ∧
    joinRoom stateEndedActive ("ABC123".toList) ("zoe".toList) ("u".toList)
      ("m".toList) 2 = (false, stateEndedActive) ∧
    endedRoomOf demoCreate.1 ("m2".toList) 7 ∈
      (joinRoom demoEndedState ("QQQQQQ".toList) ("zoe".toList) ("u".toList)
        ("m".toList) 3).2.savedRooms :=
  ⟨c1_ended_room_operations_fail.1 stateEndedActive roomEndedDemo rfl (by decide)
      ("hi".toList) ("m".toList) 1,
   c1_ended_room_operations_fail.2.1 stateEndedActive ("ABC123".toList) ("zoe".toList)
     ("u".toList) ("m".toList) 2
     (by
       intro r hr hc
       rcases hr with hr | hr
       · rw [List.mem_singleton.1 hr]; decide
       · rw [← Option.some.inj hr]; decide),
   (c1_ended_room_operations_fail.2.2 demoEndedState
     (Reachable.step
       (Reachable.step Reachable.init
         (Step.create initialState ("Rm".toList) ("Jane".toList) ("h0".toList)
           ("r0".toList) ("ABCDEF".toList) ("m0".toList) 1 1 (by simp [initialState])))
       (Step.endTheRoom demoCreate.2 ("m2".toList) 7))
     (endedRoomOf demoCreate.1 ("m2".toList) 7) (by decide) (by decide)
     ("QQQQQQ".toList) ("zoe".toList) ("u".toList) ("m".toList) 3
     ("x".toList) ("m3".toList) 4).1⟩

lemma hexVal_hexChar : ∀ n, n < 16 → hexVal (hexChar n) = some n := by decide

lemma parseStringBody_escString (s : JStr) : ∀ rest : JStr,
    parseStringBody (escString s ++ ('"' :: rest)) = some (s, rest) := by
  induction s with
  | nil => intro rest; simp [escString, parseStringBody]
  | cons c cs ih =>
    intro rest
    show parseStringBody ((escChar c ++ escString cs) ++ ('"' :: rest)) = _
    rw [List.append_assoc]
    by_cases h1 : c = '"'
    · subst h1; simp [escChar, parseStringBody, parseEscaped, unescape, ih]
    · by_cases h2 : c = '\\'
      · subst h2; simp [escChar, parseStringBody, parseEscaped, unescape, ih]
      · by_cases h3 : c = '\x08'
        · subst h3; simp [escChar, parseStringBody, parseEscaped, unescape, ih]
        · by_cases h4 : c = '\x09'
          · subst h4; simp [escChar, parseStringBody, parseEscaped, unescape, ih]
          · by_cases h5 : c = '\x0a'
            · subst h5; simp [escChar, parseStringBody, parseEscaped, unescape, ih]
            · by_cases h6 : c = '\x0c'
              · subst h6; simp [escChar, parseStringBody, parseEscaped, unescape, ih]
              · by_cases h7 : c = '\x0d'
                · subst h7; simp [escChar, parseStringBody, parseEscaped, unescape, ih]
                · by_cases h8 : c.toNat < 32
                  · rw [show escChar c =
                      ['\\', 'u', '0', '0', hexChar (c.toNat / 16), hexChar (c.toNat % 16)]
                      from by simp [escChar, h1, h2, h3, h4, h5, h6, h7, h8]]
                    have hz : hexVal '0' = some 0 := by decide
                    have hhi : hexVal (hexChar (c.toNat / 16)) = some (c.toNat / 16) :=
                      hexVal_hexChar _ (by omega)
                    have hlo : hexVal (hexChar (c.toNat % 16)) = some (c.toNat % 16) :=
                      hexVal_hexChar _ (by omega)
                    have harith : ((0 * 16 + 0) * 16 + c.toNat / 16) * 16 + c.toNat % 16 =
                        c.toNat := by omega
                    simp [parseStringBody, parseEscaped, hz, hhi, hlo, ih, harith, Char.ofNat_toNat]
                    have harith2 : c.toNat / 16 * 16 + c.toNat % 16 = c.toNat := by omega
                    rw [harith2, Char.ofNat_toNat]
                  · rw [show escChar c = [c] from by
                      simp [escChar, h1, h2, h3, h4, h5, h6, h7, h8]]
                    simp [parseStringBody, h1, h2, ih]

lemma toDecimalAux_digits : ∀ fuel n acc, n ≤ fuel →
    toDecimalAux fuel n acc =
      ((Nat.digits 10 n).reverse.map fun d => Char.ofNat (48 + d)) ++ acc := by
  intro fuel
  induction fuel with
  | zero =>
    intro n acc h
    interval_cases n
    simp [toDecimalAux]
  | succ fuel ih =>
    intro n acc h
    by_cases h0 : n = 0
    · subst h0; simp [toDecimalAux]
    · rw [toDecimalAux, if_neg h0]
      have hdiv : n / 10 < n := Nat.div_lt_self (Nat.pos_of_ne_zero h0) (by norm_num)
      rw [ih (n / 10) _ (by omega)]
      rw [Nat.digits_def' (by norm_num : (1 : Nat) < 10) (Nat.pos_of_ne_zero h0)]
      simp [List.append_assoc]

lemma foldr_ofDigits (l : List Nat) :
    l.foldr (fun d a => a * 10 + d) 0 = Nat.ofDigits 10 l := by
  induction l with
  | nil => simp [Nat.ofDigits]
  | cons d l ih =>
    simp [Nat.ofDigits, ih]
    ring

lemma foldl_digits (n : Nat) :
    (Nat.digits 10 n).reverse.foldl (fun a d => a * 10 + d) 0 = n := by
  rw [List.foldl_reverse]
  have : (Nat.digits 10 n).foldr (fun x y => y * 10 + x) 0 =
      (Nat.digits 10 n).foldr (fun d a => a * 10 + d) 0 := rfl
  rw [this, foldr_ofDigits]
  exact Nat.ofDigits_digits 10 n

lemma digitChar_facts : ∀ d, d < 10 →
    (Char.ofNat (48 + d)).isDigit = true ∧ (Char.ofNat (48 + d)).toNat - 48 = d := by
  decide

lemma parseNatRun_digitChars : ∀ (ds : List Nat), (∀ d ∈ ds, d < 10) →
    ∀ (rest : JStr) (acc : Nat), noDigitHead rest →
    parseNatRun ((ds.map fun d => Char.ofNat (48 + d)) ++ rest) acc =
      (ds.foldl (fun a d => a * 10 + d) acc, rest) := by
  intro ds
  induction ds with
  | nil =>
    intro _ rest acc hrest
    cases rest with
    | nil => simp [parseNatRun]
    | cons c r =>
      have hnd : ¬ c.isDigit = true := hrest
      simp [parseNatRun, hnd]
  | cons d ds ih =>
    intro hlt rest acc hrest
    have hd := digitChar_facts d (hlt d (List.mem_cons_self _ _))
    simp only [List.map_cons, List.cons_append, parseNatRun]
    rw [if_pos hd.1, hd.2]
    show parseNatRun (List.map (fun d => Char.ofNat (48 + d)) ds ++ rest) (acc * 10 + d) = _
    rw [ih (fun x hx => hlt x (List.mem_cons_of_mem _ hx)) rest _ hrest]
    simp

lemma parseNatRun_renderNat (n : Nat) (rest : JStr) (h : noDigitHead rest) :
    parseNatRun (renderNat n ++ rest) 0 = (n, rest) := by
  unfold renderNat
  by_cases h0 : n = 0
  · subst h0
    rw [if_pos rfl]
    have := parseNatRun_digitChars [0] (by simp) rest 0 h
    simpa using this
  · rw [if_neg h0, toDecimalAux_digits n n [] (le_refl n), List.append_nil]
    rw [parseNatRun_digitChars _
      (fun d hd => Nat.digits_lt_base (by norm_num) (List.mem_reverse.1 hd)) rest 0 h]
    rw [foldl_digits]

lemma renderNat_ne_nil (n : Nat) : renderNat n ≠ [] := by
  unfold renderNat
  by_cases h0 : n = 0
  · simp [h0]
  · rw [if_neg h0, toDecimalAux_digits n n [] (le_refl n), List.append_nil]
    simp [Nat.digits_ne_nil_iff_ne_zero.2 h0]

lemma renderNat_digits (n : Nat) : ∀ c ∈ renderNat n, c.isDigit = true := by
  unfold renderNat
  by_cases h0 : n = 0
  · simp [h0]
  · rw [if_neg h0, toDecimalAux_digits n n [] (le_refl n), List.append_nil]
    intro c hc
    obtain ⟨d, hd, hdc⟩ := List.mem_map.1 hc
    have hlt : d < 10 := Nat.digits_lt_base (by norm_num) (List.mem_reverse.1 hd)
    rw [← hdc]
    exact (digitChar_facts d hlt).1

lemma isDigit_ne (c : Char) (h : c.isDigit = true) :
    c ≠ 'n' ∧ c ≠ 't' ∧ c ≠ 'f' ∧ c ≠ '"' ∧ c ≠ '[' ∧ c ≠ '\x7b' := by
  refine ⟨?_, ?_, ?_, ?_, ?_, ?_⟩ <;>
    (intro he; subst he; exact absurd h (by decide))

lemma wVal_pos (v : Json) : 1 ≤ wVal v := by
  cases v with
  | null => simp [wVal]
  | bool b => simp [wVal]
  | num n => simp [wVal]
  | str s => simp [wVal]
  | arr l => cases l <;> simp [wVal]
  | obj l => cases l <;> simp [wVal]

lemma wItems_pos (l : List Json) : 1 ≤ wItems l := by
  cases l <;> simp [wItems]

lemma wMembers_pos (l : List (JStr × Json)) : 1 ≤ wMembers l := by
  cases l with
  | nil => simp [wMembers]
  | cons m ms =>
    obtain ⟨k, v⟩ := m
    simp [wMembers]

lemma renderJson_head (v : Json) :
    ∃ c cs, renderJson v = c :: cs ∧ c ≠ ']' ∧ c ≠ ',' ∧ c ≠ '\x7d' := by
  cases v with
  | null =>
    refine ⟨'n', ['u', 'l', 'l'], ?_, by decide, by decide, by decide⟩
    simp [renderJson, litNull, litTrue, litFalse]
  | bool b =>
    cases b
    · refine ⟨'f', ['a', 'l', 's', 'e'], ?_, by decide, by decide, by decide⟩
      simp [renderJson, litNull, litTrue, litFalse]
    · refine ⟨'t', ['r', 'u', 'e'], ?_, by decide, by decide, by decide⟩
      simp [renderJson, litNull, litTrue, litFalse]
  | num n =>
    obtain ⟨c, cs, hr⟩ : ∃ c cs, renderNat n = c :: cs := by
      cases hrn : renderNat n with
      | nil => exact absurd hrn (renderNat_ne_nil n)
      | cons c cs => exact ⟨c, cs, rfl⟩
    have hd : c.isDigit = true :=
      renderNat_digits n c (by rw [hr]; exact List.mem_cons_self _ _)
    refine ⟨c, cs, ?_, ?_, ?_, ?_⟩
    · rw [show renderJson (.num n) = renderNat n from by simp [renderJson, litNull, litTrue, litFalse], hr]
    all_goals (intro he; subst he; exact absurd hd (by decide))
  | str s =>
    refine ⟨'"', escString s ++ ['"'], ?_, by decide, by decide, by decide⟩
    simp [renderJson, litNull, litTrue, litFalse]
  | arr l =>
    cases l with
    | nil =>
      refine ⟨'[', [']'], ?_, by decide, by decide, by decide⟩
      simp [renderJson, litNull, litTrue, litFalse]
    | cons v vs =>
      refine ⟨'[', renderJson v ++ renderItems vs, ?_, by decide, by decide, by decide⟩
      simp [renderJson, litNull, litTrue, litFalse]
  | obj l =>
    cases l with
    | nil =>
      refine ⟨'\x7b', ['\x7d'], ?_, by decide, by decide, by decide⟩
      simp [renderJson, litNull, litTrue, litFalse]
    | cons m ms =>
      obtain ⟨k, v⟩ := m
      refine ⟨'\x7b', renderMember k v ++ renderMembers ms, ?_, by decide, by decide,
        by decide⟩
      simp [renderJson, litNull, litTrue, litFalse]

lemma noDigitHead_renderItems (vs : List Json) (rest : JStr) :
    noDigitHead (renderItems vs ++ rest) := by
  cases vs with
  | nil => simp [renderItems, noDigitHead]
  | cons v2 vs2 => simp [renderItems, noDigitHead]

lemma noDigitHead_renderMembers (ms : List (JStr × Json)) (rest : JStr) :
    noDigitHead (renderMembers ms ++ rest) := by
  cases ms with
  | nil => simp [renderMembers, noDigitHead]
  | cons m2 ms2 =>
    obtain ⟨k2, v2⟩ := m2
    simp [renderMembers, noDigitHead]

lemma parse_render (fuel : Nat) :
    (∀ v rest, wVal v ≤ fuel → noDigitHead rest →
      parseVal fuel (renderJson v ++ rest) = some (v, rest)) ∧
    (∀ v vs rest, wItems (v :: vs) ≤ fuel →
      parseArrTail fuel (renderJson v ++ (renderItems vs ++ rest)) =
        some (v :: vs, rest)) ∧
    (∀ k val ms rest, wMembers ((k, val) :: ms) ≤ fuel →
      parseObjTail fuel (renderMember k val ++ (renderMembers ms ++ rest)) =
        some ((k, val) :: ms, rest)) := by
  induction fuel with
  | zero =>
    refine ⟨?_, ?_, ?_⟩
    · intro v rest hw _
      have := wVal_pos v
      omega
    · intro v vs rest hw
      have := wItems_pos (v :: vs)
      omega
    · intro k val ms rest hw
      have := wMembers_pos ((k, val) :: ms)
      omega
  | succ fuel ih =>
    obtain ⟨ihV, ihI, ihM⟩ := ih
    refine ⟨?_, ?_, ?_⟩
    · intro v rest hw hrest
      cases v with
      | null =>
        rw [show renderJson .null ++ rest = 'n' :: ('u' :: ('l' :: ('l' :: rest)))
          from by simp [renderJson, litNull, litTrue, litFalse]]
        simp [parseVal, parseNullTail]
      | bool b =>
        cases b
        · rw [show renderJson (.bool false) ++ rest =
            'f' :: ('a' :: ('l' :: ('s' :: ('e' :: rest)))) from by simp [renderJson, litNull, litTrue, litFalse]]
          simp [parseVal, parseFalseTail]
        · rw [show renderJson (.bool true) ++ rest =
            't' :: ('r' :: ('u' :: ('e' :: rest))) from by simp [renderJson, litNull, litTrue, litFalse]]
          simp [parseVal, parseTrueTail]
      | num n =>
        obtain ⟨c, cs, hr⟩ : ∃ c cs, renderNat n = c :: cs := by
          cases hrn : renderNat n with
          | nil => exact absurd hrn (renderNat_ne_nil n)
          | cons c cs => exact ⟨c, cs, rfl⟩
        have hd : c.isDigit = true :=
          renderNat_digits n c (by rw [hr]; exact List.mem_cons_self _ _)
        obtain ⟨hn1, hn2, hn3, hn4, hn5, hn6⟩ := isDigit_ne c hd
        rw [show renderJson (.num n) ++ rest = c :: (cs ++ rest) from by
          simp [renderJson, litNull, litTrue, litFalse, hr]]
        simp only [parseVal]
        rw [if_neg hn1, if_neg hn2, if_neg hn3, if_neg hn4, if_neg hn5, if_neg hn6,
          if_pos hd]
        have hpn : parseNatRun (c :: (cs ++ rest)) 0 = (n, rest) := by
          have h2 := parseNatRun_renderNat n rest hrest
          rw [hr, List.cons_append] at h2
          exact h2
        rw [hpn]
      | str s =>
        rw [show renderJson (.str s) ++ rest = '"' :: (escString s ++ ('"' :: rest))
          from by simp [renderJson, litNull, litTrue, litFalse]]
        simp only [parseVal]
        rw [if_neg (by decide), if_neg (by decide), if_neg (by decide)]
        simp [parseStringBody_escString]
      | arr l =>
        cases l with
        | nil =>
          obtain ⟨f2, rfl⟩ : ∃ f2, fuel = f2 + 1 := by
            have : wVal (.arr []) = 2 := by simp [wVal]
            exact ⟨fuel - 1, by omega⟩
          rw [show renderJson (.arr []) ++ rest = '[' :: (']' :: rest) from by
            simp [renderJson, litNull, litTrue, litFalse]]
          simp [parseVal, parseArrTail]
        | cons v vs =>
          have hwi : wItems (v :: vs) ≤ fuel := by
            have : wVal (.arr (v :: vs)) = 1 + wItems (v :: vs) := by simp [wVal]
            omega
          rw [show renderJson (.arr (v :: vs)) ++ rest =
            '[' :: (renderJson v ++ (renderItems vs ++ rest)) from by
            simp [renderJson, litNull, litTrue, litFalse]]
          simp only [parseVal]
          rw [if_neg (by decide), if_neg (by decide), if_neg (by decide),
            if_neg (by decide)]
          simp [ihI v vs rest hwi]
      | obj l =>
        cases l with
        | nil =>
          obtain ⟨f2, rfl⟩ : ∃ f2, fuel = f2 + 1 := by
            have : wVal (.obj []) = 2 := by simp [wVal]
            exact ⟨fuel - 1, by omega⟩
          rw [show renderJson (.obj []) ++ rest = '\x7b' :: ('\x7d' :: rest) from by
            simp [renderJson, litNull, litTrue, litFalse]]
          simp [parseVal, parseObjTail]
        | cons m ms =>
          obtain ⟨k, v⟩ := m
          have hwm : wMembers ((k, v) :: ms) ≤ fuel := by
            have : wVal (.obj ((k, v) :: ms)) = 1 + wMembers ((k, v) :: ms) := by
              simp [wVal]
            omega
          rw [show renderJson (.obj ((k, v) :: ms)) ++ rest =
            '\x7b' :: (renderMember k v ++ (renderMembers ms ++ rest)) from by
            simp [renderJson, litNull, litTrue, litFalse]]
          simp only [parseVal]
          rw [if_neg (by decide), if_neg (by decide), if_neg (by decide),
            if_neg (by decide), if_neg (by decide)]
          simp [ihM k v ms rest hwm]
    · intro v vs rest hw
      obtain ⟨c2, cs2, hr2, hne1, _, _⟩ := renderJson_head v
      have hwv : wVal v ≤ fuel := by
        have heq : wItems (v :: vs) = 1 + max (wVal v) (wItems vs) := by simp [wItems]
        have h1 := Nat.le_max_left (wVal v) (wItems vs)
        omega
      rw [show renderJson v ++ (renderItems vs ++ rest) =
        c2 :: (cs2 ++ (renderItems vs ++ rest)) from by rw [hr2]; simp]
      simp only [parseArrTail]
      rw [if_neg hne1]
      rw [show (c2 :: (cs2 ++ (renderItems vs ++ rest))) =
        renderJson v ++ (renderItems vs ++ rest) from by rw [hr2]; simp]
      cases vs with
      | nil =>
        have hv := ihV v (']' :: rest) hwv (by intro h; exact absurd h (by decide))
        rw [show renderItems ([] : List Json) ++ rest = ']' :: rest from by
          simp [renderItems]]
        simp [hv]
      | cons v2 vs2 =>
        have hwi2 : wItems (v2 :: vs2) ≤ fuel := by
          have heq : wItems (v :: (v2 :: vs2)) =
              1 + max (wVal v) (wItems (v2 :: vs2)) := by simp [wItems]
          have h1 := Nat.le_max_right (wVal v) (wItems (v2 :: vs2))
          omega
        have hv := ihV v (renderItems (v2 :: vs2) ++ rest) hwv
          (noDigitHead_renderItems (v2 :: vs2) rest)
        have hi2 := ihI v2 vs2 rest hwi2
        rw [show renderItems (v2 :: vs2) ++ rest =
          ',' :: (renderJson v2 ++ (renderItems vs2 ++ rest)) from by
          simp [renderItems]] at hv ⊢
        simp [hv, hi2]
    · intro k val ms rest hw
      have hwv : wVal val ≤ fuel := by
        have heq : wMembers ((k, val) :: ms) = 1 + max (wVal val) (wMembers ms) := by
          simp [wMembers]
        have h1 := Nat.le_max_left (wVal val) (wMembers ms)
        omega
      rw [show renderMember k val ++ (renderMembers ms ++ rest) =
        '"' :: (escString k ++ ('"' :: (':' :: (renderJson val ++
          (renderMembers ms ++ rest))))) from by simp [renderMember]]
      simp only [parseObjTail]
      rw [if_neg (by decide)]
      cases ms with
      | nil =>
        have hv := ihV val ('\x7d' :: rest) hwv (by intro h; exact absurd h (by decide))
        rw [show renderMembers ([] : List (JStr × Json)) ++ rest = '\x7d' :: rest
          from by simp [renderMembers]]
        simp [parseStringBody_escString, hv]
      | cons m2 ms2 =>
        obtain ⟨k2, v2⟩ := m2
        have hwm2 : wMembers ((k2, v2) :: ms2) ≤ fuel := by
          have heq : wMembers ((k, val) :: ((k2, v2) :: ms2)) =
              1 + max (wVal val) (wMembers ((k2, v2) :: ms2)) := by simp [wMembers]
          have h1 := Nat.le_max_right (wVal val) (wMembers ((k2, v2) :: ms2))
          omega
        have hv := ihV val (renderMembers ((k2, v2) :: ms2) ++ rest) hwv
          (noDigitHead_renderMembers ((k2, v2) :: ms2) rest)
        have hm2 := ihM k2 v2 ms2 rest hwm2
        rw [show renderMembers ((k2, v2) :: ms2) ++ rest =
          ',' :: (renderMember k2 v2 ++ (renderMembers ms2 ++ rest)) from by
          simp [renderMembers]] at hv ⊢
        simp [parseStringBody_escString, hv, hm2]

lemma renderItems_len_pos (vs : List Json) : 1 ≤ (renderItems vs).length := by
  cases vs with
  | nil => simp [renderItems]
  | cons v2 vs2 => simp [renderItems]

lemma renderMembers_len_pos (ms : List (JStr × Json)) :
    1 ≤ (renderMembers ms).length := by
  cases ms with
  | nil => simp [renderMembers]
  | cons m2 ms2 =>
    obtain ⟨k2, v2⟩ := m2
    simp [renderMembers]

lemma weight_le_render : ∀ n : Nat,
    (∀ v : Json, wVal v ≤ n → wVal v ≤ (renderJson v).length + 1) ∧
    (∀ l : List Json, wItems l ≤ n → wItems l ≤ (renderItems l).length) ∧
    (∀ l : List (JStr × Json), wMembers l ≤ n →
      wMembers l ≤ (renderMembers l).length) := by
  intro n
  induction n using Nat.strong_induction_on with
  | _ n ih =>
    refine ⟨?_, ?_, ?_⟩
    · intro v hv
      cases v with
      | null => simp [wVal, renderJson, litNull, litTrue, litFalse]
      | bool b => cases b <;> simp [wVal, renderJson, litNull, litTrue, litFalse]
      | num n2 => simp [wVal]
      | str s => simp [wVal]
      | arr l =>
        cases l with
        | nil => simp [wVal, renderJson, litNull, litTrue, litFalse]
        | cons v vs =>
          have heq : wVal (.arr (v :: vs)) = 1 + wItems (v :: vs) := by simp [wVal]
          have hlt : wItems (v :: vs) < n := by omega
          have hI := (ih _ hlt).2.1 (v :: vs) (le_refl _)
          have hlen : (renderJson (.arr (v :: vs))).length =
              (renderItems (v :: vs)).length := by
            simp [renderJson, renderItems]
          omega
      | obj l =>
        cases l with
        | nil => simp [wVal, renderJson, litNull, litTrue, litFalse]
        | cons m ms =>
          obtain ⟨k, v⟩ := m
          have heq : wVal (.obj ((k, v) :: ms)) = 1 + wMembers ((k, v) :: ms) := by
            simp [wVal]
          have hlt : wMembers ((k, v) :: ms) < n := by omega
          have hM := (ih _ hlt).2.2 ((k, v) :: ms) (le_refl _)
          have hlen : (renderJson (.obj ((k, v) :: ms))).length =
              (renderMembers ((k, v) :: ms)).length := by
            simp [renderJson, renderMembers]
          omega
    · intro l hl
      cases l with
      | nil => simp [wItems, renderItems]
      | cons v vs =>
        have heq : wItems (v :: vs) = 1 + max (wVal v) (wItems vs) := by simp [wItems]
        have hvlt : wVal v < n := by
          have := Nat.le_max_left (wVal v) (wItems vs)
          omega
        have hslt : wItems vs < n := by
          have := Nat.le_max_right (wVal v) (wItems vs)
          omega
        have hV := (ih _ hvlt).1 v (le_refl _)
        have hS := (ih _ hslt).2.1 vs (le_refl _)
        have hpos := renderItems_len_pos vs
        have hlen : (renderItems (v :: vs)).length =
            (renderJson v).length + (renderItems vs).length + 1 := by
          simp [renderItems]
        have hm : max (wVal v) (wItems vs) ≤
            (renderJson v).length + (renderItems vs).length :=
          Nat.max_le.mpr ⟨by omega, by omega⟩
        omega
    · intro l hl
      cases l with
      | nil => simp [wMembers, renderMembers]
      | cons m ms =>
        obtain ⟨k, v⟩ := m
        have heq : wMembers ((k, v) :: ms) = 1 + max (wVal v) (wMembers ms) := by
          simp [wMembers]
        have hvlt : wVal v < n := by
          have := Nat.le_max_left (wVal v) (wMembers ms)
          omega
        have hslt : wMembers ms < n := by
          have := Nat.le_max_right (wVal v) (wMembers ms)
          omega
        have hV := (ih _ hvlt).1 v (le_refl _)
        have hS := (ih _ hslt).2.2 ms (le_refl _)
        have hpos := renderMembers_len_pos ms
        have hlen : (renderMembers ((k, v) :: ms)).length =
            (renderMember k v).length + (renderMembers ms).length + 1 := by
          simp [renderMembers]
        have hlenm : (renderMember k v).length = (escString k).length +
            (renderJson v).length + 3 := by
          simp [renderMember]
          omega
        have hm : max (wVal v) (wMembers ms) ≤
            (renderMember k v).length + (renderMembers ms).length :=
          Nat.max_le.mpr ⟨by omega, by omega⟩
        omega

lemma parseJsonText_renderJson (v : Json) : parseJsonText (renderJson v) = some v := by
  unfold parseJsonText
  have hw : wVal v ≤ (renderJson v).length + 1 :=
    (weight_le_render (wVal v)).1 v (le_refl _)
  have h := (parse_render ((renderJson v).length + 1)).1 v [] hw trivial
  rw [List.append_nil] at h
  rw [h]

lemma decodeList_map {α : Type} (g : Json → Option α) (f : α → Json)
    (h : ∀ a, g (f a) = some a) : ∀ l : List α, decodeList g (l.map f) = some l := by
  intro l
  induction l with
  | nil => simp [decodeList]
  | cons a as ih => simp [decodeList, h, ih]

lemma roleOfStr_roleStr (r : UserRole) : roleOfStr (roleStr r) = some r := by
  cases r <;> decide

lemma jsonToUser_userToJson (u : User) : jsonToUser (userToJson u) = some u := by
  obtain ⟨i, n, d, r⟩ := u
  simp [userToJson, jsonToUser, roleOfStr_roleStr]

lemma jsonToMessage_msgToJson (m : Message) : jsonToMessage (msgToJson m) = some m := by
  obtain ⟨i, si, sd, ct, ts, sys⟩ := m
  cases sys with
  | none => simp [msgToJson, jsonToMessage]
  | some b => simp [msgToJson, jsonToMessage]

lemma jsonToRoom_roomToJson (r : ChatRoom) : jsonToRoom (roomToJson r) = some r := by
  obtain ⟨i, n, ca, ea, hid, ps, ms, cd⟩ := r
  cases ea with
  | none =>
    simp [roomToJson, jsonToRoom, decodeList_map jsonToUser userToJson
      jsonToUser_userToJson, decodeList_map jsonToMessage msgToJson
      jsonToMessage_msgToJson]
  | some te =>
    simp [roomToJson, jsonToRoom, decodeList_map jsonToUser userToJson
      jsonToUser_userToJson, decodeList_map jsonToMessage msgToJson
      jsonToMessage_msgToJson]

lemma jsonToRooms_roomsToJson (rs : List ChatRoom) :
    jsonToRooms (roomsToJson rs) = some rs := by
  simp [roomsToJson, jsonToRooms,
    decodeList_map jsonToRoom roomToJson jsonToRoom_roomToJson]

/-- C8: serializing the collection and loading it back returns a deep-equal
collection, leaving the stored string in place. -/
theorem c8_save_load_round_trip (rs : List ChatRoom) :
    loadRooms (saveRooms rs) = (rs, saveRooms rs) := by
  simp only [saveRooms, loadRooms]
  rw [parseJsonText_renderJson (roomsToJson rs)]
  simp [jsonToRooms_roomsToJson rs]

/-- C7: a mount whose stored entry is absent yields the empty collection, and
a mount whose stored entry fails to parse yields the empty collection and, by
the persist effect that runs on the same mount, overwrites the corrupt entry
with the serialization of the empty collection: the resulting entry is not the
corrupt string, it parses successfully, and a subsequent mount loads the empty
collection without encountering the failure again. -/
theorem c7_corrupt_entry_self_heals :
    (mountRooms none).1 = [] ∧
    ∀ s, parseJsonText s = none →
      (mountRooms (some s)).1 = [] ∧
      (mountRooms (some s)).2 = saveRooms [] ∧
      (mountRooms (some s)).2 ≠ some s ∧
      (∃ t, (mountRooms (some s)).2 = some t ∧
        parseJsonText t = some (roomsToJson [])) ∧
      mountRooms (mountRooms (some s)).2 = ([], saveRooms []) := by
  refine ⟨rfl, ?_⟩
  intro s h
  have h1 : loadRooms (some s) = ([], some s) := by
    simp only [loadRooms]
    rw [h]
  have hm : mountRooms (some s) = ([], saveRooms []) := by
    simp only [mountRooms]
    rw [h1]
  refine ⟨by rw [hm], by rw [hm], ?_, ?_, ?_⟩
  · rw [hm]
    intro heq
    have hs : s = renderJson (roomsToJson []) := (Option.some.inj heq).symm
    rw [hs, parseJsonText_renderJson] at h
    exact Option.noConfusion h
  · rw [hm]
    exact ⟨renderJson (roomsToJson []), rfl, parseJsonText_renderJson _⟩
  · rw [hm]
    have h2 : loadRooms (saveRooms []) = ([], saveRooms []) := by
      simp only [saveRooms, loadRooms]
      rw [parseJsonText_renderJson (roomsToJson [])]
      simp [jsonToRooms_roomsToJson]
    simp only [mountRooms]
    rw [h2]

/-- Witness for C7 at the concrete corrupt entry oops. -/
theorem c7_corrupt_entry_self_heals_witness :
    (mountRooms (some ("oops".toList))).1 = [] ∧
    (mountRooms (some ("oops".toList))).2 = saveRooms [] ∧
    (mountRooms (some ("oops".toList))).2 ≠ some ("oops".toList) ∧
    (∃ t, (mountRooms (some ("oops".toList))).2 = some t ∧
      parseJsonText t = some (roomsToJson [])) ∧
    mountRooms (mountRooms (some ("oops".toList))).2 = ([], saveRooms []) :=
  c7_corrupt_entry_self_heals.2 ("oops".toList) rfl

end ChatterSpec
